import Mathlib

/-!
Verification of the evidence-repository quality-analysis engine and of three
supporting services (semantic search, document ingestion, text decoding).

The quality/consistency-analysis engine (normalization, conflict detection by
maximal cliques, open-question detection, result assembly) is specified in the
repository's design document; its service module is referenced from
`api/routes/documents.py` (`QualityAnalysisService`) but the module itself is
not part of the analyzed sources, so the engine is modelled here from the
specification text.  The search service (`services/search_service.py`), the
ingestion task (`queue/tasks.py:task_ingest_document`) and the text decoder
(`queue/tasks.py:_extract_text_content`) are embedded from their sources.

Conventions of the embedding:
* dates and timestamps are abstract month indices (integers); "more than 12
  months before" becomes strict comparison against `now - 12`;
* numeric metric values are exact rationals (`ℚ`); the detector's comparisons
  are implemented by integer cross-multiplication on numerator/denominator and
  proved equivalent to the rational-arithmetic statements of the specification;
* database queries are modelled by their list semantics (filter / sort / limit)
  over an in-memory table snapshot.
-/

set_option linter.unusedSectionVars false
set_option linter.unusedVariables false

namespace EvidenceRepository

/-! ## Generic conflict-graph module: maximal-clique enumeration

The specification's tie-break rule emits one conflict per maximal set of
mutually pairwise-conflicting facts.  The module below is generic in the fact
type and the (symmetric) pairwise adjacency test. -/

namespace CliqueGraph

variable {α : Type} [DecidableEq α]

/-- A list of facts is a clique when every pair of its members is adjacent. -/
def isCliqueB (adj : α → α → Bool) : List α → Bool
  | [] => true
  | x :: xs => xs.all (fun y => adj x y) && isCliqueB adj xs

/-- A clique `c` can grow inside `l` when some fact of `l` outside `c` is
adjacent to every member of `c`. -/
def canGrow (adj : α → α → Bool) (l c : List α) : Bool :=
  l.any (fun x => !(decide (x ∈ c)) && c.all (fun y => adj x y))

/-- All maximal cliques of size at least two among the facts of `l`,
enumerated as subsequences of `l`. -/
def maximalCliques (adj : α → α → Bool) (l : List α) : List (List α) :=
  l.sublists.filter (fun c => decide (2 ≤ c.length) && isCliqueB adj c && !canGrow adj l c)

/-- Specification-side clique property: all members pairwise adjacent. -/
def IsClique (adj : α → α → Bool) (c : List α) : Prop :=
  c.Pairwise (fun a b => adj a b = true)

/-- Specification-side maximality: `c` is a subsequence of `l`, has at least
two members, is a clique, and every fact of `l` outside `c` fails to be
adjacent to some member of `c`. -/
def IsMaximalCliqueIn (adj : α → α → Bool) (l c : List α) : Prop :=
  c.Sublist l ∧ 2 ≤ c.length ∧ IsClique adj c ∧
    ∀ x ∈ l, x ∉ c → ∃ y ∈ c, adj x y = false

end CliqueGraph

/-! ## Exact numeric comparisons

The detector compares metric values with a 5% relative tolerance (0.01
absolute when a value is approximately zero) and severity cutoffs at 20% and
50%.  Values are exact rationals; all comparisons are implemented by integer
cross-multiplication over numerator/denominator so they evaluate inside the
kernel, and are proved equivalent to the rational-arithmetic inequalities of
the specification. -/

/-- Numerator of `a - b` over the common denominator `a.den * b.den`. -/
def crossDiff (a b : ℚ) : Int :=
  a.num * (b.den : Int) - b.num * (a.den : Int)

/-- A value is approximately zero when `|v| < 1/100`. -/
def approxZero (v : ℚ) : Bool :=
  100 * v.num.natAbs < v.den

/-- `|a - b| > 1/100`, the absolute tolerance used near zero. -/
def absTolExceeded (a b : ℚ) : Bool :=
  a.den * b.den < 100 * (crossDiff a b).natAbs

/-- `|a - b| > (1/m) * min |a| |b|`: the relative comparison at ratio `1/m`,
by cross multiplication (exceeding the minimum means exceeding one side). -/
def relCmpExceeded (m : ℕ) (a b : ℚ) : Bool :=
  (a.num.natAbs * b.den < m * (crossDiff a b).natAbs) ||
    (b.num.natAbs * a.den < m * (crossDiff a b).natAbs)

/-! ## Data model of the quality-analysis engine

Modelled from the spec: the `QualityAnalysisService` module referenced by
`api/routes/documents.py` is not among the analyzed sources, so the data model
of section 3 of the specification is embedded here.  The `open` lifecycle
state is rendered `opened` (a Lean keyword clash). -/

/-- Source-document-implied confidence of a fact (spec section 3). -/
inductive Certainty
  | definite
  | probable
  | possible
  | disputed
deriving DecidableEq, Repr

/-- Canonical unit families used by normalization (spec section 4.1). -/
inductive UnitType
  | monetary
  | percent
  | count
  | unknown
deriving DecidableEq, Repr

inductive Severity
  | low
  | medium
  | high
  | critical
deriving DecidableEq, Repr

inductive Priority
  | low
  | medium
  | high
deriving DecidableEq, Repr

inductive ConflictType
  | metricValueConflict
  | claimContradiction
deriving DecidableEq, Repr

inductive ConflictStatus
  | opened
  | acknowledged
  | resolved
deriving DecidableEq, Repr

inductive QuestionCategory
  | missingUnit
  | missingCurrency
  | missingPeriod
  | staleData
  | ambiguousValue
  | missingEvidence
deriving DecidableEq, Repr

inductive QuestionStatus
  | opened
  | answered
  | dismissed
deriving DecidableEq, Repr

/-- Modelled from the spec: the external vocabulary registry consulted by
normalization and priority rules (spec section 6), as a typed interface. -/
structure Vocabulary where
  unitTypeOf : String → UnitType
  isCritical : String → Bool
  isPeriodSensitive : String → Bool

/-- Modelled from the spec: a raw extracted metric fact (spec section 3).
Dates and timestamps are abstract month indices. -/
structure RawMetric where
  fid : ℕ
  entityId : String
  entityType : String
  metricName : String
  valueNumeric : Option ℚ
  valueRaw : String
  unit : Option String
  currency : Option String
  periodStart : Option ℤ
  periodEnd : Option ℤ
  certainty : Certainty
  extractionConfidence : ℚ
  spanRefs : List ℕ
  extractedAt : ℤ
deriving DecidableEq, Repr

/-- Modelled from the spec: resolved boolean/enumerated claim values
(spec section 4.1). -/
inductive NormalizedValue
  | vtrue
  | vfalse
  | vunknown
  | venum (s : String)
deriving DecidableEq, Repr

/-- Modelled from the spec: a raw extracted claim fact (spec section 3). -/
structure RawClaim where
  fid : ℕ
  subjectName : String
  subjectType : String
  objectName : String
  predicate : String
  claimType : String
  value : Option String
  certainty : Certainty
  extractionConfidence : ℚ
  timeScopeStart : Option ℤ
  timeScopeEnd : Option ℤ
  spanRefs : List ℕ
  extractedAt : ℤ
deriving DecidableEq, Repr

/-! ## Normalization layer (spec section 4.1) -/

/-- ASCII lower-casing of a character. -/
def lowerChar (c : Char) : Char :=
  if 'A' ≤ c ∧ c ≤ 'Z' then Char.ofNat (c.toNat + 32) else c

/-- Lower-case a token and discard all whitespace. -/
def normalizeToken (s : String) : String :=
  String.mk ((s.data.filter (fun c => !c.isWhitespace)).map lowerChar)

/-- Split a character list into maximal whitespace-free words. -/
def splitWords : List Char → List Char → List (List Char)
  | [], acc => if acc.isEmpty then [] else [acc.reverse]
  | c :: rest, acc =>
    if c.isWhitespace then
      if acc.isEmpty then splitWords rest [] else acc.reverse :: splitWords rest []
    else splitWords rest (c :: acc)

def joinWords : List (List Char) → List Char
  | [] => []
  | [w] => w
  | w :: ws => w ++ ' ' :: joinWords ws

/-- Modelled from the spec: case-insensitive, whitespace-normalized entity
name matching (spec section 4.1, exact-match only). -/
def normalizeName (s : String) : String :=
  String.mk ((joinWords (splitWords s.data [])).map lowerChar)

def currencyCodeOf (t : String) : Option String :=
  if t = "usd" || t = "$" || t = "us$" || t = "dollar" || t = "dollars" then some "USD"
  else if t = "eur" || t = "euro" || t = "euros" then some "EUR"
  else if t = "gbp" || t = "pound" || t = "pounds" then some "GBP"
  else none

def resolveUnitToken (t : String) : Option (UnitType × String) :=
  match currencyCodeOf t with
  | some code => some (UnitType.monetary, code)
  | none =>
    if t = "%" || t = "percent" || t = "pct" || t = "percentage" then
      some (UnitType.percent, "percent")
    else if t = "count" || t = "units" || t = "people" || t = "employees" ||
        t = "customers" || t = "users" then
      some (UnitType.count, "count")
    else none

/-- Whole-token scale multipliers (spec section 4.2 rule 4: K=1e3, M=1e6,
B=1e9). -/
def multiplierOf (t : String) : Option ℕ :=
  if t = "k" || t = "thousand" || t = "thousands" then some 1000
  else if t = "m" || t = "mm" || t = "million" || t = "millions" then some 1000000
  else if t = "b" || t = "bn" || t = "billion" || t = "billions" then some 1000000000
  else none

/-- Strip one trailing multiplier letter from a token. -/
def splitTrailingMultiplier (t : String) : Option (String × ℕ) :=
  match t.data.reverse with
  | [] => none
  | c :: restRev =>
    if c = 'k' then some (String.mk restRev.reverse, 1000)
    else if c = 'm' then some (String.mk restRev.reverse, 1000000)
    else if c = 'b' then some (String.mk restRev.reverse, 1000000000)
    else none

/-- Resolved unit: canonical family, canonical symbol, scale multiplier. -/
structure ResolvedUnit where
  unitType : UnitType
  symbol : Option String
  scale : ℕ
deriving DecidableEq, Repr

/-- Modelled from the spec: best-effort unit and scale resolution
(spec sections 4.1 and 4.2 rule 4); an unresolvable unit keeps family
`unknown` rather than failing. -/
def resolveUnit (u : String) : ResolvedUnit :=
  let t := normalizeToken u
  match resolveUnitToken t with
  | some (ut, sym) => ⟨ut, some sym, 1⟩
  | none =>
    match multiplierOf t with
    | some sc => ⟨UnitType.unknown, none, sc⟩
    | none =>
      match splitTrailingMultiplier t with
      | some (base, sc) =>
        match resolveUnitToken base with
        | some (ut, sym) => ⟨ut, some sym, sc⟩
        | none => ⟨UnitType.unknown, none, 1⟩
      | none => ⟨UnitType.unknown, none, 1⟩

/-- Modelled from the spec: currency resolution to an ISO code when
determinable from the explicit currency field or the unit symbol, else null
(spec section 4.1). -/
def resolveCurrency (currency : Option String) (unitSymbol : Option String) :
    Option String :=
  match currency with
  | some c => currencyCodeOf (normalizeToken c)
  | none =>
    match unitSymbol with
    | some "USD" => some "USD"
    | some "EUR" => some "EUR"
    | some "GBP" => some "GBP"
    | _ => none

/-- Effective period window; a single-date period becomes a zero-length
window (spec section 4.1). -/
def effectiveWindow (ps pe : Option ℤ) : Option (ℤ × ℤ) :=
  match ps, pe with
  | some s, some e => some (s, e)
  | some s, none => some (s, s)
  | none, some e => some (e, e)
  | none, none => none

/-- Scale a rational value by a natural multiplier. -/
def applyScale (sc : ℕ) (q : ℚ) : ℚ :=
  if sc = 1 then q else q * (sc : ℚ)

/-- Modelled from the spec: normalized metric form (spec section 4.1). -/
structure NormalizedMetric where
  fid : ℕ
  entityId : String
  metricName : String
  valueNumeric : Option ℚ
  unitType : UnitType
  unitSymbol : Option String
  currency : Option String
  window : Option (ℤ × ℤ)
  unparseable : Bool
  certainty : Certainty
  spanRefs : List ℕ
  extractedAt : ℤ
  valueRaw : String
deriving DecidableEq, Repr

/-- Modelled from the spec: `normalize_metric` (spec section 4.1); total on
all raw inputs, an unresolvable unit becomes family `unknown` and a missing
numeric value is flagged `unparseable` instead of erroring. -/
def normalize_metric (m : RawMetric) : NormalizedMetric :=
  let ru := match m.unit with
    | some u => resolveUnit u
    | none => ⟨UnitType.unknown, none, 1⟩
  { fid := m.fid
    entityId := m.entityId
    metricName := m.metricName
    valueNumeric := m.valueNumeric.map (applyScale ru.scale)
    unitType := ru.unitType
    unitSymbol := ru.symbol
    currency := resolveCurrency m.currency ru.symbol
    window := effectiveWindow m.periodStart m.periodEnd
    unparseable := m.valueNumeric.isNone
    certainty := m.certainty
    spanRefs := m.spanRefs
    extractedAt := m.extractedAt
    valueRaw := m.valueRaw }

/-- Modelled from the spec: map heterogeneous truthy/falsy/enumerated value
representations to `vtrue`/`vfalse`/`vunknown`/enum literal
(spec section 4.1). -/
def resolveClaimValue : Option String → NormalizedValue
  | none => NormalizedValue.vunknown
  | some v =>
    let t := normalizeToken v
    if t = "true" || t = "yes" || t = "y" || t = "1" then NormalizedValue.vtrue
    else if t = "false" || t = "no" || t = "n" || t = "0" then NormalizedValue.vfalse
    else if t = "unknown" || t = "" || t = "na" || t = "n/a" || t = "null" then
      NormalizedValue.vunknown
    else NormalizedValue.venum t

/-- Modelled from the spec: normalized claim form (spec section 4.1). -/
structure NormalizedClaim where
  fid : ℕ
  subjectKey : String
  predicate : String
  value : NormalizedValue
  window : Option (ℤ × ℤ)
  certainty : Certainty
  spanRefs : List ℕ
  extractedAt : ℤ
deriving DecidableEq, Repr

/-- Modelled from the spec: `normalize_claim` (spec section 4.1); total on
all raw inputs, an unresolvable value becomes `vunknown`. -/
def normalize_claim (c : RawClaim) : NormalizedClaim :=
  { fid := c.fid
    subjectKey := normalizeName c.subjectName
    predicate := c.predicate
    value := resolveClaimValue c.value
    window := effectiveWindow c.timeScopeStart c.timeScopeEnd
    certainty := c.certainty
    spanRefs := c.spanRefs
    extractedAt := c.extractedAt }

/-! ## Conflict detector (spec section 4.2) -/

/-- Window overlap test `start_a <= end_b AND start_b <= end_a`; a fact with
no window matches any period (spec section 4.2 step 2). -/
def windowsOverlap (w1 w2 : Option (ℤ × ℤ)) : Bool :=
  match w1, w2 with
  | some (s1, e1), some (s2, e2) => decide (s1 ≤ e2) && decide (s2 ≤ e1)
  | _, _ => true

/-- Units are comparable when of the same resolved family, or when both are
unresolvable (spec section 4.2 step 3). -/
def unitsComparable (u1 u2 : UnitType) : Bool :=
  (decide (u1 = u2) && !(decide (u1 = UnitType.unknown))) ||
    (decide (u1 = UnitType.unknown) && decide (u2 = UnitType.unknown))

/-- Both currencies resolved but different (spec section 4.2 rule 4). -/
def currencyMismatch (c1 c2 : Option String) : Bool :=
  match c1, c2 with
  | some x, some y => decide (x ≠ y)
  | _, _ => false

/-- Two values disagree when they differ by more than 5% relative tolerance,
or by more than 0.01 absolute when either value is approximately zero
(spec section 4.2 step 3); `1/20 = 5/100`. -/
def valuesDisagree (a b : ℚ) : Bool :=
  if approxZero a || approxZero b then absTolExceeded a b else relCmpExceeded 20 a b

/-- Pairwise metric-value conflict test for two normalized metrics of one
`(entity_id, metric_name)` group: overlapping windows, comparable units,
disagreeing parsed values (spec section 4.2). -/
def metricPairConflict (m1 m2 : NormalizedMetric) : Bool :=
  match m1.valueNumeric, m2.valueNumeric with
  | some a, some b =>
    windowsOverlap m1.window m2.window && unitsComparable m1.unitType m2.unitType &&
      valuesDisagree a b
  | _, _ => false

/-- Conflict-graph adjacency between distinct metric facts. -/
def metricAdj (m1 m2 : NormalizedMetric) : Bool :=
  decide (m1.fid ≠ m2.fid) && metricPairConflict m1 m2

/-- Pairwise severity (spec section 4.2 step 5): capped `low` for
unresolvable units and for unverified currency mismatches; `critical` when
both facts are definite and beyond 50% (`1/2`) relative difference; `high`
beyond 20% (`1/5`); else `medium`. -/
def metricPairSeverity (m1 m2 : NormalizedMetric) : Severity :=
  if m1.unitType = UnitType.unknown || m2.unitType = UnitType.unknown then Severity.low
  else if currencyMismatch m1.currency m2.currency then Severity.low
  else
    match m1.valueNumeric, m2.valueNumeric with
    | some a, some b =>
      if decide (m1.certainty = Certainty.definite) &&
          decide (m2.certainty = Certainty.definite) && relCmpExceeded 2 a b then
        Severity.critical
      else if relCmpExceeded 5 a b then Severity.high
      else Severity.medium
    | _, _ => Severity.medium

def sevRank : Severity → ℕ
  | Severity.low => 0
  | Severity.medium => 1
  | Severity.high => 2
  | Severity.critical => 3

def maxSeverity (s1 s2 : Severity) : Severity :=
  if sevRank s1 ≤ sevRank s2 then s2 else s1

/-- Severity of a conflicting clique: the largest pairwise severity. -/
def metricCliqueSeverity : List NormalizedMetric → Severity
  | [] => Severity.low
  | x :: xs => (xs.map (metricPairSeverity x)).foldr maxSeverity (metricCliqueSeverity xs)

structure Conflict where
  conflictType : ConflictType
  severity : Severity
  status : ConflictStatus
  involvedFacts : List ℕ
  rationale : String
deriving DecidableEq, Repr

def metricGroupKey (m : NormalizedMetric) : String × String :=
  (m.entityId, m.metricName)

/-- The normalized metrics of one `(entity_id, metric_name)` group. -/
def metricGroup (ms : List NormalizedMetric) (k : String × String) :
    List NormalizedMetric :=
  ms.filter (fun m => decide (metricGroupKey m = k))

/-- Group the facts, and emit one conflict record per maximal clique of
mutually pairwise-conflicting facts of a group (spec section 4.2, tie-break
rule); generic over the fact type, the group key and the adjacency test. -/
def groupedConflicts {β : Type} [DecidableEq β] (key : β → String × String)
    (adj : β → β → Bool) (mk : String × String → List β → Conflict)
    (l : List β) : List Conflict :=
  ((l.map key).dedup).flatMap (fun k =>
    (CliqueGraph.maximalCliques adj (l.filter (fun x => decide (key x = k)))).map (mk k))

/-- The conflict record emitted for one conflicting metric clique. -/
def mkMetricConflict (k : String × String) (c : List NormalizedMetric) : Conflict :=
  { conflictType := ConflictType.metricValueConflict
    severity := metricCliqueSeverity c
    status := ConflictStatus.opened
    involvedFacts := c.map (fun m => m.fid)
    rationale := "conflicting values reported for metric " ++ k.2 }

/-- Modelled from the spec: metric conflict detection — group by
`(entity_id, metric_name)`, emit one open conflict per maximal clique of
mutually pairwise-conflicting facts (spec section 4.2). -/
def metricConflicts (ms : List NormalizedMetric) : List Conflict :=
  groupedConflicts metricGroupKey metricAdj mkMetricConflict ms

/-- Pairwise claim contradiction: overlapping time scopes, resolved values
differ, neither value unknown (spec section 4.2). -/
def claimsContradictory (c1 c2 : NormalizedClaim) : Bool :=
  windowsOverlap c1.window c2.window && decide (c1.value ≠ c2.value) &&
    !(decide (c1.value = NormalizedValue.vunknown)) &&
    !(decide (c2.value = NormalizedValue.vunknown))

def claimAdj (c1 c2 : NormalizedClaim) : Bool :=
  decide (c1.fid ≠ c2.fid) && claimsContradictory c1 c2

/-- Claim contradiction severity (spec section 4.2): `high` when both
certainties are in definite/probable, `low` when either is disputed, else
`medium`. -/
def claimPairSeverity (c1 c2 : NormalizedClaim) : Severity :=
  if (decide (c1.certainty = Certainty.definite) || decide (c1.certainty = Certainty.probable)) &&
      (decide (c2.certainty = Certainty.definite) || decide (c2.certainty = Certainty.probable)) then
    Severity.high
  else if c1.certainty = Certainty.disputed || c2.certainty = Certainty.disputed then
    Severity.low
  else Severity.medium

def claimCliqueSeverity : List NormalizedClaim → Severity
  | [] => Severity.low
  | x :: xs => (xs.map (claimPairSeverity x)).foldr maxSeverity (claimCliqueSeverity xs)

def claimGroupKey (c : NormalizedClaim) : String × String :=
  (c.subjectKey, c.predicate)

def claimGroup (cs : List NormalizedClaim) (k : String × String) :
    List NormalizedClaim :=
  cs.filter (fun c => decide (claimGroupKey c = k))

/-- The conflict record emitted for one contradicting claim clique. -/
def mkClaimConflict (k : String × String) (c : List NormalizedClaim) : Conflict :=
  { conflictType := ConflictType.claimContradiction
    severity := claimCliqueSeverity c
    status := ConflictStatus.opened
    involvedFacts := c.map (fun x => x.fid)
    rationale := "contradictory values asserted for predicate " ++ k.2 }

/-- Modelled from the spec: claim contradiction detection — group by
`(subject identity, predicate)`, one open conflict per maximal clique
(spec section 4.2). -/
def claimConflicts (cs : List NormalizedClaim) : List Conflict :=
  groupedConflicts claimGroupKey claimAdj mkClaimConflict cs

/-! ## Open-question detector (spec section 4.3) -/

structure OpenQuestion where
  category : QuestionCategory
  priority : Priority
  status : QuestionStatus
  relatedFactId : ℕ
  statement : String
deriving DecidableEq, Repr

/-- Staleness reference date: the window's end, else the extraction
timestamp (spec section 4.3). -/
def staleRefDate (window : Option (ℤ × ℤ)) (extractedAt : ℤ) : ℤ :=
  match window with
  | some (_, e) => e
  | none => extractedAt

/-- A fact is stale when its reference date is more than 12 months before
the analysis run time (spec section 4.3). -/
def isStale (now refDate : ℤ) : Bool :=
  decide (refDate < now - 12)

/-- Number of maximal digit runs in a raw value text. -/
def countNumberRuns : List Char → Bool → ℕ
  | [], _ => 0
  | c :: rest, inRun =>
    if c.isDigit then (if inRun then 0 else 1) + countNumberRuns rest true
    else countNumberRuns rest false

def numberCount (s : String) : ℕ :=
  countNumberRuns s.data false

/-- Rule `missing_unit`: a parsed numeric value without a resolvable unit
(spec section 4.3). -/
def ruleMissingUnit (m : NormalizedMetric) : List OpenQuestion :=
  if m.valueNumeric.isSome && decide (m.unitType = UnitType.unknown) then
    [{ category := QuestionCategory.missingUnit
       priority := Priority.low
       status := QuestionStatus.opened
       relatedFactId := m.fid
       statement := "metric " ++ m.metricName ++ " has a numeric value but no resolvable unit" }]
  else []

/-- Rule `missing_currency`: monetary metric without a resolved currency
(spec section 4.3). -/
def ruleMissingCurrency (vocab : Vocabulary) (m : NormalizedMetric) : List OpenQuestion :=
  if decide (vocab.unitTypeOf m.metricName = UnitType.monetary) && decide (m.currency = none) then
    [{ category := QuestionCategory.missingCurrency
       priority := Priority.medium
       status := QuestionStatus.opened
       relatedFactId := m.fid
       statement := "monetary metric " ++ m.metricName ++ " has no resolvable currency" }]
  else []

/-- Rule `missing_period`: no period information on a period-sensitive metric
(spec section 4.3). -/
def ruleMissingPeriod (vocab : Vocabulary) (m : NormalizedMetric) : List OpenQuestion :=
  if decide (m.window = none) && vocab.isPeriodSensitive m.metricName then
    [{ category := QuestionCategory.missingPeriod
       priority := if decide (vocab.unitTypeOf m.metricName = UnitType.monetary) ||
           vocab.isCritical m.metricName then Priority.medium else Priority.low
       status := QuestionStatus.opened
       relatedFactId := m.fid
       statement := "period-sensitive metric " ++ m.metricName ++ " has no period information" }]
  else []

/-- Rule `stale_data` for metrics: reference date more than 12 months before
the analysis run time; `high` priority on vocabulary-critical metrics, else
`medium` (spec section 4.3). -/
def ruleStaleMetric (vocab : Vocabulary) (now : ℤ) (m : NormalizedMetric) : List OpenQuestion :=
  if isStale now (staleRefDate m.window m.extractedAt) then
    [{ category := QuestionCategory.staleData
       priority := if vocab.isCritical m.metricName then Priority.high else Priority.medium
       status := QuestionStatus.opened
       relatedFactId := m.fid
       statement := "metric " ++ m.metricName ++ " is more than 12 months old" }]
  else []

/-- Rule `ambiguous_value`: the raw value text holds several numbers
(spec section 4.3). -/
def ruleAmbiguousValue (m : NormalizedMetric) : List OpenQuestion :=
  if decide (2 ≤ numberCount m.valueRaw) then
    [{ category := QuestionCategory.ambiguousValue
       priority := Priority.low
       status := QuestionStatus.opened
       relatedFactId := m.fid
       statement := "raw value of metric " ++ m.metricName ++ " holds several numbers" }]
  else []

/-- Rule `missing_evidence` for metrics (defensive check, spec section 4.3). -/
def ruleMissingEvidenceMetric (m : NormalizedMetric) : List OpenQuestion :=
  if decide (m.spanRefs.length < 1) then
    [{ category := QuestionCategory.missingEvidence
       priority := Priority.high
       status := QuestionStatus.opened
       relatedFactId := m.fid
       statement := "metric " ++ m.metricName ++ " cites no evidence span" }]
  else []

/-- Modelled from the spec: per-metric open-question rules
(spec section 4.3), evaluated independently; several rules may fire on the
same metric. -/
def questionsForMetric (vocab : Vocabulary) (now : ℤ) (m : NormalizedMetric) :
    List OpenQuestion :=
  ruleMissingUnit m ++ ruleMissingCurrency vocab m ++ ruleMissingPeriod vocab m ++
    ruleStaleMetric vocab now m ++ ruleAmbiguousValue m ++ ruleMissingEvidenceMetric m

/-- Rule `stale_data` for claims (spec section 4.3); claims are outside the
vocabulary-designated critical metric set, so priority is `medium`. -/
def ruleStaleClaim (now : ℤ) (c : NormalizedClaim) : List OpenQuestion :=
  if isStale now (staleRefDate c.window c.extractedAt) then
    [{ category := QuestionCategory.staleData
       priority := Priority.medium
       status := QuestionStatus.opened
       relatedFactId := c.fid
       statement := "claim about predicate " ++ c.predicate ++ " is more than 12 months old" }]
  else []

/-- Rule `missing_evidence` for claims (defensive check, spec section 4.3). -/
def ruleMissingEvidenceClaim (c : NormalizedClaim) : List OpenQuestion :=
  if decide (c.spanRefs.length < 1) then
    [{ category := QuestionCategory.missingEvidence
       priority := Priority.high
       status := QuestionStatus.opened
       relatedFactId := c.fid
       statement := "claim about predicate " ++ c.predicate ++ " cites no evidence span" }]
  else []

/-- Modelled from the spec: per-claim open-question rules (staleness and the
defensive evidence check apply to claims; spec section 4.3). -/
def questionsForClaim (now : ℤ) (c : NormalizedClaim) : List OpenQuestion :=
  ruleStaleClaim now c ++ ruleMissingEvidenceClaim c

/-! ## Analysis result assembler (spec section 4.4) -/

def prioRank : Priority → ℕ
  | Priority.low => 0
  | Priority.medium => 1
  | Priority.high => 2

/-- Alphabetical rank of the category names used for the deterministic
secondary sort of open questions. -/
def categoryRank : QuestionCategory → ℕ
  | QuestionCategory.ambiguousValue => 0
  | QuestionCategory.missingCurrency => 1
  | QuestionCategory.missingEvidence => 2
  | QuestionCategory.missingPeriod => 3
  | QuestionCategory.missingUnit => 4
  | QuestionCategory.staleData => 5

/-- Conflict ordering: severity descending, then involved-fact count
descending (spec section 4.4). -/
def conflictLE (c1 c2 : Conflict) : Prop :=
  sevRank c2.severity < sevRank c1.severity ∨
    (sevRank c2.severity = sevRank c1.severity ∧
      c2.involvedFacts.length ≤ c1.involvedFacts.length)

instance : DecidableRel conflictLE := fun c1 c2 => by
  unfold conflictLE
  infer_instance

/-- Open-question ordering: priority descending, then category name
(spec section 4.4). -/
def questionLE (q1 q2 : OpenQuestion) : Prop :=
  prioRank q2.priority < prioRank q1.priority ∨
    (prioRank q2.priority = prioRank q1.priority ∧
      categoryRank q1.category ≤ categoryRank q2.category)

instance : DecidableRel questionLE := fun q1 q2 => by
  unfold questionLE
  infer_instance

structure AnalysisSummary where
  totalConflicts : ℕ
  metricValueConflicts : ℕ
  claimContradictions : ℕ
  criticalConflicts : ℕ
  highConflicts : ℕ
  mediumConflicts : ℕ
  lowConflicts : ℕ
  totalOpenQuestions : ℕ
  highQuestions : ℕ
  mediumQuestions : ℕ
  lowQuestions : ℕ
deriving DecidableEq, Repr

def mkSummary (cs : List Conflict) (qs : List OpenQuestion) : AnalysisSummary :=
  { totalConflicts := cs.length
    metricValueConflicts := cs.countP (fun c => decide (c.conflictType = ConflictType.metricValueConflict))
    claimContradictions := cs.countP (fun c => decide (c.conflictType = ConflictType.claimContradiction))
    criticalConflicts := cs.countP (fun c => decide (c.severity = Severity.critical))
    highConflicts := cs.countP (fun c => decide (c.severity = Severity.high))
    mediumConflicts := cs.countP (fun c => decide (c.severity = Severity.medium))
    lowConflicts := cs.countP (fun c => decide (c.severity = Severity.low))
    totalOpenQuestions := qs.length
    highQuestions := qs.countP (fun q => decide (q.priority = Priority.high))
    mediumQuestions := qs.countP (fun q => decide (q.priority = Priority.medium))
    lowQuestions := qs.countP (fun q => decide (q.priority = Priority.low)) }

/-- Scope filters echoed back to the caller (spec section 4.4). -/
structure ScopeFilter where
  documentId : Option ℕ
  versionId : Option ℕ
  profileId : Option ℕ
  levelId : Option ℕ
deriving DecidableEq, Repr

structure AnalysisResult where
  conflicts : List Conflict
  openQuestions : List OpenQuestion
  summary : AnalysisSummary
  scopeEcho : ScopeFilter
deriving DecidableEq, Repr

/-- The fact snapshot handed to the engine (spec section 6); the fetch is
external and the set is already scoped. -/
structure FactInput where
  metrics : List RawMetric
  claims : List RawClaim
deriving DecidableEq, Repr

/-- Canonical processing order: facts are iterated in ascending fact-id
order, making the engine insensitive to input ordering. -/
def sortMetricsByFid (l : List RawMetric) : List RawMetric :=
  l.insertionSort (fun a b => a.fid ≤ b.fid)

def sortClaimsByFid (l : List RawClaim) : List RawClaim :=
  l.insertionSort (fun a b => a.fid ≤ b.fid)

/-- Modelled from the spec: the core entry point
`analyze(facts, scope_filter) -> AnalysisResult` (spec section 6) — a pure
computation: normalize, detect conflicts and open questions, assemble the
sorted report. -/
def normalizedMetricsOf (input : FactInput) : List NormalizedMetric :=
  (sortMetricsByFid input.metrics).map normalize_metric

def normalizedClaimsOf (input : FactInput) : List NormalizedClaim :=
  (sortClaimsByFid input.claims).map normalize_claim

def analyze (vocab : Vocabulary) (now : ℤ) (scope : ScopeFilter)
    (input : FactInput) : AnalysisResult :=
  let conflicts := (metricConflicts (normalizedMetricsOf input) ++
    claimConflicts (normalizedClaimsOf input)).insertionSort conflictLE
  let questions := ((normalizedMetricsOf input).flatMap (questionsForMetric vocab now) ++
    (normalizedClaimsOf input).flatMap (questionsForClaim now)).insertionSort questionLE
  { conflicts := conflicts
    openQuestions := questions
    summary := mkSummary conflicts questions
    scopeEcho := scope }

/-! ## Semantic search service

Embedded from `services/search_service.py` (`SearchService.search`).  The
SQL query is modelled by its list semantics over an in-memory snapshot of
the `embedding_chunks` table joined with its document data: filter by the
similarity threshold and the optional project/document scoping subqueries,
order by similarity descending, apply the limit.  The similarity column
(`1 - cosine_distance(embedding, query_embedding)`) is a function of the row
computed by the database; it enters the model as the `sim` argument.  The
wall-clock fields `search_time_ms` and `timestamp` are outside the
embedding. -/

structure ChunkRow where
  chunkId : ℕ
  documentVersionId : ℕ
  documentId : ℕ
  spanId : Option ℕ
  text : String
  chunkIndex : ℕ
  charStart : Option ℤ
  charEnd : Option ℤ
  documentFilename : String
  documentContentType : String
deriving DecidableEq, Repr

structure SearchResultItem where
  chunkId : ℕ
  documentId : ℕ
  documentVersionId : ℕ
  spanId : Option ℕ
  text : String
  similarity : ℚ
  chunkIndex : ℕ
  charStart : Option ℤ
  charEnd : Option ℤ
  documentFilename : String
  documentContentType : String
deriving DecidableEq, Repr

structure SearchResults where
  query : String
  results : List SearchResultItem
  total : ℕ
deriving DecidableEq, Repr

/-- List semantics of the search query built in `SearchService.search`:
`WHERE similarity >= threshold` plus the optional scoping filters, then
`ORDER BY similarity DESC`, then `LIMIT limit`. -/
def runSearchQuery (table : List ChunkRow) (sim : ChunkRow → ℚ)
    (threshold : ℚ) (lim : ℕ) (extra : ChunkRow → Bool) : List ChunkRow :=
  ((table.filter (fun ch => extra ch && decide (threshold ≤ sim ch))).insertionSort
    (fun a b => sim b ≤ sim a)).take lim

/-- A row of the search result, built from a chunk row and its similarity
(`SearchService.search`, result-building loop). -/
def mkSearchItem (sim : ChunkRow → ℚ) (ch : ChunkRow) : SearchResultItem :=
  { chunkId := ch.chunkId
    documentId := ch.documentId
    documentVersionId := ch.documentVersionId
    spanId := ch.spanId
    text := ch.text
    similarity := sim ch
    chunkIndex := ch.chunkIndex
    charStart := ch.charStart
    charEnd := ch.charEnd
    documentFilename := ch.documentFilename
    documentContentType := ch.documentContentType }

/-- The optional project and document scoping filters combined, as the two
conditional `.where` clauses of `SearchService.search`. -/
def searchExtraFilter (projectFilter documentFilter : Option (ChunkRow → Bool)) :
    ChunkRow → Bool := fun ch =>
  (match projectFilter with
   | some f => f ch
   | none => true) &&
  (match documentFilter with
   | some f => f ch
   | none => true)

/-- `SearchService.search`: embed the query (the embedding only enters
through `sim`), run the similarity query with the optional project and
document filters, build the result items, and report `total` as the number
of returned rows. -/
def searchService_search (table : List ChunkRow) (sim : ChunkRow → ℚ)
    (query : String) (lim : ℕ) (threshold : ℚ)
    (projectFilter : Option (ChunkRow → Bool))
    (documentFilter : Option (ChunkRow → Bool)) : SearchResults :=
  let rows := runSearchQuery table sim threshold lim
    (searchExtraFilter projectFilter documentFilter)
  let results := rows.map (mkSearchItem sim)
  { query := query
    results := results
    total := results.length }

/-! ## Document ingestion task

Embedded from `queue/tasks.py` (`task_ingest_document`, `_compute_file_hash`).
The database state is a snapshot of the `documents` and `document_versions`
tables; SHA-256 enters the model as the `sha256` hash argument.
`scalar_one_or_none` on the dedup query errors out when several rows match,
returns the row when exactly one matches, and `None` otherwise. -/

structure DocRecord where
  docId : ℕ
  filename : String
  originalFilename : String
  contentType : String
  fileHash : Option String
  deletedAt : Option ℤ
deriving DecidableEq, Repr

structure VersionRecord where
  verId : ℕ
  documentId : ℕ
  versionNumber : ℕ
  storagePath : String
  fileSize : ℕ
  fileHash : String
deriving DecidableEq, Repr

structure DBState where
  documents : List DocRecord
  versions : List VersionRecord
deriving DecidableEq, Repr

structure IngestOutcome where
  documentId : ℕ
  versionId : Option ℕ
  deduplicated : Bool
deriving DecidableEq, Repr

/-- `Document.versions` relationship: versions of a document ordered by
version number descending (`models/document.py`). -/
def versionsOf (st : DBState) (docId : ℕ) : List VersionRecord :=
  (st.versions.filter (fun v => decide (v.documentId = docId))).insertionSort
    (fun a b => b.versionNumber ≤ a.versionNumber)

/-- The dedup predicate of `task_ingest_document`: same SHA-256 file hash,
not soft-deleted. -/
def dedupMatch (fileHash : String) (d : DocRecord) : Bool :=
  decide (d.fileHash = some fileHash) && decide (d.deletedAt = none)

/-- `task_ingest_document`: hash the content; if exactly one non-deleted
document with that hash exists, return it deduplicated without touching the
state; if none exists, create one document and one version-1 record; if
several match, `scalar_one_or_none` raises. -/
def task_ingest_document (sha256 : List ℕ → String) (st : DBState)
    (freshDocId freshVerId : ℕ) (fileData : List ℕ) (filename : String)
    (contentType : String) (userId : Option String) :
    Except String (DBState × IngestOutcome) :=
  let fileHash := sha256 fileData
  match st.documents.filter (dedupMatch fileHash) with
  | [existing] =>
    Except.ok (st,
      { documentId := existing.docId
        versionId := ((versionsOf st existing.docId).head?).map (fun v => v.verId)
        deduplicated := true })
  | [] =>
    let doc : DocRecord :=
      { docId := freshDocId
        filename := filename
        originalFilename := filename
        contentType := contentType
        fileHash := some fileHash
        deletedAt := none }
    let ver : VersionRecord :=
      { verId := freshVerId
        documentId := freshDocId
        versionNumber := 1
        storagePath := "documents/" ++ toString freshDocId ++ "/v1/" ++ filename
        fileSize := fileData.length
        fileHash := fileHash }
    Except.ok
      ({ documents := st.documents ++ [doc], versions := st.versions ++ [ver] },
       { documentId := freshDocId
         versionId := some freshVerId
         deduplicated := false })
  | _ => Except.error "MultipleResultsFound"

/-! ## Text decoding

Embedded from `queue/tasks.py` (`_extract_text_content`): try the codecs
utf-8, latin-1 and cp1252 in order, falling back to utf-8 with replacement.
Bytes are naturals below 256; decoded text is a list of code points. -/

inductive TextEncoding
  | utf8
  | latin1
  | cp1252
deriving DecidableEq, Repr

def isContinuationByte (b : ℕ) : Bool :=
  decide (0x80 ≤ b) && decide (b ≤ 0xBF)

/-- Strict UTF-8 decoding: rejects stray continuation bytes, overlong forms,
surrogate code points and values beyond U+10FFFF, as Python's strict utf-8
codec does. -/
def utf8Decode : List ℕ → Option (List ℕ)
  | [] => some []
  | b :: rest =>
    if b ≤ 0x7F then (utf8Decode rest).map (fun t => b :: t)
    else if b < 0xC2 then none
    else if b ≤ 0xDF then
      match rest with
      | b1 :: rest2 =>
        if isContinuationByte b1 then
          (utf8Decode rest2).map (fun t => ((b - 0xC0) * 64 + (b1 - 0x80)) :: t)
        else none
      | [] => none
    else if b ≤ 0xEF then
      match rest with
      | b1 :: b2 :: rest3 =>
        let cp := (b - 0xE0) * 4096 + (b1 - 0x80) * 64 + (b2 - 0x80)
        if isContinuationByte b1 && isContinuationByte b2 &&
            decide (0x800 ≤ cp) && !(decide (0xD800 ≤ cp) && decide (cp ≤ 0xDFFF)) then
          (utf8Decode rest3).map (fun t => cp :: t)
        else none
      | _ => none
    else if b ≤ 0xF4 then
      match rest with
      | b1 :: b2 :: b3 :: rest4 =>
        let cp := (b - 0xF0) * 262144 + (b1 - 0x80) * 4096 + (b2 - 0x80) * 64 + (b3 - 0x80)
        if isContinuationByte b1 && isContinuationByte b2 && isContinuationByte b3 &&
            decide (0x10000 ≤ cp) && decide (cp ≤ 0x10FFFF) then
          (utf8Decode rest4).map (fun t => cp :: t)
        else none
      | _ => none
    else none
termination_by data => data.length
decreasing_by all_goals simp_arith [*]

/-- Windows-1252 mapping of the 0x80–0x9F block; five bytes are unmapped
and make the codec fail. -/
def cp1252Point (b : ℕ) : Option ℕ :=
  if b < 0x80 || 0x9F < b then some b
  else if b = 0x80 then some 0x20AC
  else if b = 0x82 then some 0x201A
  else if b = 0x83 then some 0x0192
  else if b = 0x84 then some 0x201E
  else if b = 0x85 then some 0x2026
  else if b = 0x86 then some 0x2020
  else if b = 0x87 then some 0x2021
  else if b = 0x88 then some 0x02C6
  else if b = 0x89 then some 0x2030
  else if b = 0x8A then some 0x0160
  else if b = 0x8B then some 0x2039
  else if b = 0x8C then some 0x0152
  else if b = 0x8E then some 0x017D
  else if b = 0x91 then some 0x2018
  else if b = 0x92 then some 0x2019
  else if b = 0x93 then some 0x201C
  else if b = 0x94 then some 0x201D
  else if b = 0x95 then some 0x2022
  else if b = 0x96 then some 0x2013
  else if b = 0x97 then some 0x2014
  else if b = 0x98 then some 0x02DC
  else if b = 0x99 then some 0x2122
  else if b = 0x9A then some 0x0161
  else if b = 0x9B then some 0x203A
  else if b = 0x9C then some 0x0153
  else if b = 0x9E then some 0x017E
  else if b = 0x9F then some 0x0178
  else none

/-- One decoding attempt of `data.decode(encoding)`: latin-1 maps every byte
to the equal code point and never fails; cp1252 fails on its five unmapped
bytes; utf-8 validates multi-byte sequences. -/
def decodeWith : TextEncoding → List ℕ → Option (List ℕ)
  | TextEncoding.utf8, data => utf8Decode data
  | TextEncoding.latin1, data => some data
  | TextEncoding.cp1252, data => data.mapM cp1252Point

/-- The `for encoding in [...]` loop: first decoding attempt that does not
raise `UnicodeDecodeError`. -/
def tryDecodings : List TextEncoding → List ℕ → Option (List ℕ)
  | [], _ => none
  | e :: rest, data =>
    match decodeWith e data with
    | some t => some t
    | none => tryDecodings rest data

/-- The `errors="replace"` fallback: scan as utf-8, emitting U+FFFD for each
byte that does not start a valid sequence. -/
def utf8ReplaceDecode (data : List ℕ) : List ℕ :=
  match data with
  | [] => []
  | b :: rest =>
    if b ≤ 0x7F then b :: utf8ReplaceDecode rest
    else 0xFFFD :: utf8ReplaceDecode rest

/-- `_extract_text_content`: try utf-8, latin-1 and cp1252 in order; the
final line falls back to replacement decoding. -/
def extractTextContent (data : List ℕ) : List ℕ :=
  match tryDecodings [TextEncoding.utf8, TextEncoding.latin1, TextEncoding.cp1252] data with
  | some t => t
  | none => utf8ReplaceDecode data

/-! ## Concrete fixtures for the specification's scenarios -/

/-- A small vocabulary for the scenarios: `arr` is a critical, monetary,
period-sensitive metric. -/
def sampleVocab : Vocabulary :=
  { unitTypeOf := fun n => if n = "arr" then UnitType.monetary else UnitType.unknown
    isCritical := fun n => n = "arr"
    isPeriodSensitive := fun n => n = "arr" }

/-- An ARR metric of the `acme` entity over the window `[0, 2]`. -/
def sampleMetric (i : ℕ) (v : ℚ) : RawMetric :=
  { fid := i
    entityId := "acme"
    entityType := "company"
    metricName := "arr"
    valueNumeric := some v
    valueRaw := "value"
    unit := some "usd"
    currency := none
    periodStart := some 0
    periodEnd := some 2
    certainty := Certainty.definite
    extractionConfidence := 1
    spanRefs := [1]
    extractedAt := 0 }

/-- The same metric over an explicit window. -/
def sampleMetricAt (i : ℕ) (v : ℚ) (ps pe : ℤ) : RawMetric :=
  { sampleMetric i v with periodStart := some ps, periodEnd := some pe }

def emptyScope : ScopeFilter :=
  { documentId := none, versionId := none, profileId := none, levelId := none }

/-- A `has_soc2` claim of the `acme` subject with the given value. -/
def sampleClaim (i : ℕ) (v : Option String) : RawClaim :=
  { fid := i
    subjectName := "Acme"
    subjectType := "company"
    objectName := "soc2"
    predicate := "has_soc2"
    claimType := "compliance"
    value := v
    certainty := Certainty.definite
    extractionConfidence := 1
    timeScopeStart := some 0
    timeScopeEnd := some 2
    spanRefs := [1]
    extractedAt := 0 }

/-! ## Lemmas: the clique enumerator -/

namespace CliqueGraph

variable {α : Type} [DecidableEq α]

theorem isCliqueB_iff (adj : α → α → Bool) :
    ∀ c : List α, isCliqueB adj c = true ↔ IsClique adj c := by
  intro c
  induction c with
  | nil => simp [isCliqueB, IsClique]
  | cons x xs ih =>
    simp [isCliqueB, IsClique, List.pairwise_cons, ih, IsClique]

theorem canGrow_eq_false_iff (adj : α → α → Bool) (l c : List α) :
    canGrow adj l c = false ↔ ∀ x ∈ l, x ∉ c → ∃ y ∈ c, adj x y = false := by
  constructor
  · intro h x hx hxc
    by_contra hnone
    push_neg at hnone
    have hall : (c.all (fun y => adj x y)) = true := by
      rw [List.all_eq_true]
      intro y hy
      have := hnone y hy
      revert this; cases adj x y <;> simp
    have hgrow : canGrow adj l c = true := by
      rw [canGrow, List.any_eq_true]
      exact ⟨x, hx, by simp [hxc, hall]⟩
    rw [h] at hgrow
    simp at hgrow
  · intro h
    by_contra hne
    have hgrow : canGrow adj l c = true := by
      revert hne; cases canGrow adj l c <;> simp
    rw [canGrow, List.any_eq_true] at hgrow
    rcases hgrow with ⟨x, hx, hcond⟩
    simp only [Bool.and_eq_true, Bool.not_eq_true', decide_eq_false_iff_not,
      List.all_eq_true] at hcond
    rcases h x hx hcond.1 with ⟨y, hy, hyf⟩
    rw [hcond.2 y hy] at hyf
    simp at hyf

theorem mem_maximalCliques (adj : α → α → Bool) (l c : List α) :
    c ∈ maximalCliques adj l ↔ IsMaximalCliqueIn adj l c := by
  unfold maximalCliques IsMaximalCliqueIn
  rw [List.mem_filter, List.mem_sublists]
  constructor
  · rintro ⟨hsub, hcond⟩
    simp only [Bool.and_eq_true, decide_eq_true_eq, Bool.not_eq_true'] at hcond
    exact ⟨hsub, hcond.1.1, (isCliqueB_iff adj c).1 hcond.1.2,
      (canGrow_eq_false_iff adj l c).1 hcond.2⟩
  · rintro ⟨hsub, hlen, hcl, hmax⟩
    refine ⟨hsub, ?_⟩
    simp only [Bool.and_eq_true, decide_eq_true_eq, Bool.not_eq_true']
    exact ⟨⟨hlen, (isCliqueB_iff adj c).2 hcl⟩, (canGrow_eq_false_iff adj l c).2 hmax⟩

/-- A nodup list whose members are pairwise related by a relation (tested on
distinct members only) is `Pairwise`-related. -/
theorem pairwise_of_nodup_of_forall {r : α → α → Prop} :
    ∀ {l : List α}, l.Nodup → (∀ a ∈ l, ∀ b ∈ l, a ≠ b → r a b) → l.Pairwise r := by
  intro l
  induction l with
  | nil => intro _ _; exact List.Pairwise.nil
  | cons x xs ih =>
    intro hnd h
    rw [List.nodup_cons] at hnd
    refine List.Pairwise.cons ?_ (ih hnd.2 fun a ha b hb hab =>
      h a (List.mem_cons_of_mem _ ha) b (List.mem_cons_of_mem _ hb) hab)
    intro b hb
    exact h x (List.mem_cons_self _ _) b (List.mem_cons_of_mem _ hb)
      (fun hxb => hnd.1 (hxb ▸ hb))

/-- In a clique of a symmetric adjacency, any two distinct members are
adjacent. -/
theorem IsClique.adj_of_mem {adj : α → α → Bool} (hs : ∀ a b, adj a b = adj b a)
    {c : List α} (hc : IsClique adj c) {a b : α} (ha : a ∈ c) (hb : b ∈ c)
    (hab : a ≠ b) : adj a b = true := by
  have hsym : Symmetric (fun a b : α => adj a b = true) := by
    intro u v huv
    rw [hs v u]
    exact huv
  exact List.Pairwise.forall hsym hc ha hb hab

/-- Two subsequences of a nodup list with the same members coincide. -/
theorem sublist_eq_of_mem_iff :
    ∀ {l c₁ c₂ : List α}, l.Nodup → c₁.Sublist l → c₂.Sublist l →
      (∀ x, x ∈ c₁ ↔ x ∈ c₂) → c₁ = c₂ := by
  intro l
  induction l with
  | nil =>
    intro c₁ c₂ _ h1 h2 _
    rw [List.sublist_nil.1 h1, List.sublist_nil.1 h2]
  | cons x xs ih =>
    intro c₁ c₂ hnd h1 h2 hmem
    rw [List.nodup_cons] at hnd
    rcases List.sublist_cons_iff.1 h1 with h1' | ⟨t₁, rfl, h1'⟩
    · rcases List.sublist_cons_iff.1 h2 with h2' | ⟨t₂, rfl, h2'⟩
      · exact ih hnd.2 h1' h2' hmem
      · exact absurd (h1'.subset ((hmem x).2 (List.mem_cons_self _ _))) hnd.1
    · rcases List.sublist_cons_iff.1 h2 with h2' | ⟨t₂, rfl, h2'⟩
      · exact absurd (h2'.subset ((hmem x).1 (List.mem_cons_self _ _))) hnd.1
      · have hx₁ : x ∉ t₁ := fun hx => hnd.1 (h1'.subset hx)
        have hx₂ : x ∉ t₂ := fun hx => hnd.1 (h2'.subset hx)
        have : t₁ = t₂ := by
          refine ih hnd.2 h1' h2' fun y => ⟨fun hy => ?_, fun hy => ?_⟩
          · have := (hmem y).1 (List.mem_cons_of_mem _ hy)
            rcases List.mem_cons.1 this with rfl | h
            · exact absurd hy hx₁
            · exact h
          · have := (hmem y).2 (List.mem_cons_of_mem _ hy)
            rcases List.mem_cons.1 this with rfl | h
            · exact absurd hy hx₂
            · exact h
        rw [this]

/-- Two distinct members of a list give a two-element subsequence in one of
the two orders. -/
theorem pair_sublist :
    ∀ {l : List α} {a b : α}, a ∈ l → b ∈ l → a ≠ b →
      [a, b].Sublist l ∨ [b, a].Sublist l := by
  intro l
  induction l with
  | nil => intro a b ha _ _; exact absurd ha (List.not_mem_nil a)
  | cons x xs ih =>
    intro a b ha hb hab
    rcases List.mem_cons.1 ha with rfl | ha'
    · have hb' : b ∈ xs := by
        rcases List.mem_cons.1 hb with rfl | h
        · exact absurd rfl hab
        · exact h
      exact Or.inl (List.cons_sublist_cons.2 (List.singleton_sublist.2 hb'))
    · rcases List.mem_cons.1 hb with rfl | hb'
      · exact Or.inr (List.cons_sublist_cons.2 (List.singleton_sublist.2 ha'))
      · rcases ih ha' hb' hab with h | h
        · exact Or.inl (h.cons x)
        · exact Or.inr (h.cons x)

theorem two_le_length_of_mem {c : List α} {a b : α} (ha : a ∈ c) (hb : b ∈ c)
    (hab : a ≠ b) : 2 ≤ c.length := by
  match c with
  | [] => exact absurd ha (List.not_mem_nil a)
  | [x] =>
    rw [List.mem_singleton] at ha hb
    exact absurd (ha.trans hb.symm) hab
  | x :: y :: t => simp only [List.length_cons]; omega

/-- Every adjacent pair of a nodup fact list lies inside some enumerated
maximal clique. -/
theorem exists_maximalClique_containing {adj : α → α → Bool}
    (hs : ∀ a b, adj a b = adj b a) {l : List α} (hl : l.Nodup) {a b : α}
    (ha : a ∈ l) (hb : b ∈ l) (hab : a ≠ b) (hadj : adj a b = true) :
    ∃ c ∈ maximalCliques adj l, a ∈ c ∧ b ∈ c := by
  classical
  set L := l.sublists.filter
    (fun c => isCliqueB adj c && decide (a ∈ c) && decide (b ∈ c)) with hLdef
  have memL : ∀ c : List α, c ∈ L ↔
      c.Sublist l ∧ IsClique adj c ∧ a ∈ c ∧ b ∈ c := by
    intro c
    rw [hLdef, List.mem_filter, List.mem_sublists]
    simp only [Bool.and_eq_true, decide_eq_true_eq, isCliqueB_iff]
    tauto
  have hLne : ∃ c, c ∈ L := by
    rcases pair_sublist ha hb hab with h | h
    · exact ⟨[a, b], (memL _).2 ⟨h, by simp [IsClique, hadj],
        List.mem_cons_self _ _, by simp⟩⟩
    · refine ⟨[b, a], (memL _).2 ⟨h, by simp [IsClique, (hs b a).trans hadj], by simp,
        List.mem_cons_self _ _⟩⟩
  rcases hLne with ⟨c₀, hc₀⟩
  cases hargm : L.argmax List.length with
  | none => exact absurd hc₀ (by simp [List.argmax_eq_none.1 hargm])
  | some m =>
    have hmL : m ∈ L := List.argmax_mem hargm
    rcases (memL m).1 hmL with ⟨hmsub, hmcl, ham, hbm⟩
    have hmnd : m.Nodup := hl.sublist hmsub
    refine ⟨m, ?_, ham, hbm⟩
    rw [mem_maximalCliques]
    refine ⟨hmsub, two_le_length_of_mem ham hbm hab, hmcl, ?_⟩
    intro x hx hxm
    by_contra hnone
    push_neg at hnone
    have hadjall : ∀ y ∈ m, adj x y = true := by
      intro y hy
      have := hnone y hy
      revert this
      cases adj x y <;> simp
    -- grow the clique by x, contradicting maximal length
    obtain ⟨m', hmdef⟩ : ∃ m'', m'' = l.filter (fun y => decide (y ∈ m) || decide (y = x)) :=
      ⟨_, rfl⟩
    have hmem' : ∀ y, y ∈ m' ↔ y ∈ m ∨ y = x := by
      intro y
      rw [hmdef, List.mem_filter]
      simp only [Bool.or_eq_true, decide_eq_true_eq]
      constructor
      · exact fun h => h.2
      · rintro (h | rfl)
        · exact ⟨hmsub.subset h, Or.inl h⟩
        · exact ⟨hx, Or.inr rfl⟩
    have hm'sub : m'.Sublist l := hmdef ▸ List.filter_sublist l
    have hm'nd : m'.Nodup := hl.sublist hm'sub
    have hxm'nd : (x :: m).Nodup := List.nodup_cons.2 ⟨hxm, hmnd⟩
    have hperm : List.Perm m' (x :: m) := by
      rw [List.perm_ext_iff_of_nodup hm'nd hxm'nd]
      intro y
      rw [hmem', List.mem_cons]
      tauto
    have hm'len : m'.length = m.length + 1 := by
      rw [hperm.length_eq, List.length_cons]
    have hm'cl : IsClique adj m' := by
      refine pairwise_of_nodup_of_forall hm'nd ?_
      intro u hu v hv huv
      rcases (hmem' u).1 hu with hu' | rfl
      · rcases (hmem' v).1 hv with hv' | rfl
        · exact hmcl.adj_of_mem hs hu' hv' huv
        · rw [hs]
          exact hadjall u hu'
      · rcases (hmem' v).1 hv with hv' | rfl
        · exact hadjall v hv'
        · exact absurd rfl huv
    have hm'L : m' ∈ L :=
      (memL m').2 ⟨hm'sub, hm'cl, (hmem' a).2 (Or.inl ham), (hmem' b).2 (Or.inl hbm)⟩
    have := List.le_of_mem_argmax hm'L hargm
    omega

/-- The enumeration lists each maximal clique once. -/
theorem nodup_maximalCliques (adj : α → α → Bool) {l : List α} (hl : l.Nodup) :
    (maximalCliques adj l).Nodup :=
  (List.nodup_sublists.2 hl).filter _

end CliqueGraph

/-! ## Lemmas: exact numeric comparisons against the rational arithmetic -/

theorem sub_eq_crossDiff (a b : ℚ) :
    a - b = (crossDiff a b : ℚ) / ((a.den : ℚ) * (b.den : ℚ)) := by
  have ha : ((a.den : ℚ)) ≠ 0 := by
    exact_mod_cast a.den_nz
  have hb : ((b.den : ℚ)) ≠ 0 := by
    exact_mod_cast b.den_nz
  conv_lhs => rw [← Rat.num_div_den a, ← Rat.num_div_den b]
  rw [div_sub_div _ _ ha hb, crossDiff]
  push_cast
  ring_nf

theorem abs_intCast_q (c : Int) : |((c : ℚ))| = ((c.natAbs : ℚ)) := by
  rw [Int.cast_natAbs, Int.cast_abs]

theorem abs_eq_natAbs_div (a : ℚ) :
    |a| = (a.num.natAbs : ℚ) / (a.den : ℚ) := by
  have hden : (0 : ℚ) < (a.den : ℚ) := by
    exact_mod_cast a.pos
  conv_lhs => rw [← Rat.num_div_den a]
  rw [abs_div, abs_of_pos hden, abs_intCast_q]

theorem approxZero_iff (v : ℚ) : approxZero v = true ↔ |v| < 1 / 100 := by
  have hden : (0 : ℚ) < (v.den : ℚ) := by
    exact_mod_cast v.pos
  rw [approxZero, abs_eq_natAbs_div, div_lt_div_iff₀ hden (by norm_num)]
  rw [decide_eq_true_eq]
  constructor
  · intro h
    have h2 : ((100 * v.num.natAbs : ℕ) : ℚ) < ((v.den : ℕ) : ℚ) := by
      exact_mod_cast h
    push_cast at h2
    linarith
  · intro h
    have h2 : ((100 * v.num.natAbs : ℕ) : ℚ) < ((v.den : ℕ) : ℚ) := by
      push_cast
      linarith
    exact_mod_cast h2

theorem absTolExceeded_iff (a b : ℚ) :
    absTolExceeded a b = true ↔ 1 / 100 < |a - b| := by
  have hda : (0 : ℚ) < (a.den : ℚ) := by exact_mod_cast a.pos
  have hdb : (0 : ℚ) < (b.den : ℚ) := by exact_mod_cast b.pos
  have hD : (0 : ℚ) < (a.den : ℚ) * (b.den : ℚ) := by positivity
  rw [absTolExceeded, sub_eq_crossDiff, abs_div, abs_of_pos hD, abs_intCast_q,
    div_lt_div_iff₀ (by norm_num) hD, decide_eq_true_eq]
  constructor
  · intro h
    have h2 : ((a.den * b.den : ℕ) : ℚ) < ((100 * (crossDiff a b).natAbs : ℕ) : ℚ) := by
      exact_mod_cast h
    push_cast at h2
    linarith
  · intro h
    have h2 : ((a.den * b.den : ℕ) : ℚ) < ((100 * (crossDiff a b).natAbs : ℕ) : ℚ) := by
      push_cast
      linarith
    exact_mod_cast h2

theorem one_side_rel_iff (a b : ℚ) (m : ℕ) (hm : 0 < m) :
    (a.num.natAbs * b.den < m * (crossDiff a b).natAbs) ↔
      (1 / m : ℚ) * |a| < |a - b| := by
  have hda : (0 : ℚ) < (a.den : ℚ) := by exact_mod_cast a.pos
  have hdb : (0 : ℚ) < (b.den : ℚ) := by exact_mod_cast b.pos
  have hm2 : (0 : ℚ) < (m : ℚ) := by exact_mod_cast hm
  have hD : (0 : ℚ) < (a.den : ℚ) * (b.den : ℚ) := by positivity
  rw [sub_eq_crossDiff, abs_div, abs_of_pos hD, abs_intCast_q, abs_eq_natAbs_div,
    div_mul_div_comm, one_mul, div_lt_div_iff₀ (by positivity) hD]
  constructor
  · intro h
    have h2 : ((a.num.natAbs * b.den : ℕ) : ℚ) <
        ((m * (crossDiff a b).natAbs : ℕ) : ℚ) := by
      exact_mod_cast h
    push_cast at h2
    nlinarith [mul_lt_mul_of_pos_right h2 hda]
  · intro h
    have h2 : ((a.num.natAbs * b.den : ℕ) : ℚ) <
        ((m * (crossDiff a b).natAbs : ℕ) : ℚ) := by
      push_cast
      nlinarith [h, hda, mul_pos hda hdb]
    exact_mod_cast h2

theorem relCmpExceeded_iff (a b : ℚ) (m : ℕ) (hm : 0 < m) :
    relCmpExceeded m a b = true ↔ (1 / m : ℚ) * min |a| |b| < |a - b| := by
  rw [relCmpExceeded, Bool.or_eq_true, decide_eq_true_eq, decide_eq_true_eq]
  have hmin : (1 / m : ℚ) * min |a| |b| =
      min ((1 / m : ℚ) * |a|) ((1 / m : ℚ) * |b|) := by
    have hm2 : (0 : ℚ) ≤ 1 / (m : ℚ) := by positivity
    exact mul_min_of_nonneg _ _ hm2
  rw [hmin, min_lt_iff, one_side_rel_iff a b m hm]
  have hswap : (crossDiff a b).natAbs = (crossDiff b a).natAbs := by
    rw [show crossDiff b a = -(crossDiff a b) by rw [crossDiff, crossDiff]; ring]
    simp
  have h2 : (b.num.natAbs * a.den < m * (crossDiff a b).natAbs) ↔
      (1 / m : ℚ) * |b| < |b - a| := by
    rw [hswap]
    exact one_side_rel_iff b a m hm
  rw [h2, abs_sub_comm b a]

/-! ## Lemmas: symmetry of the pairwise tests -/

theorem crossDiff_natAbs_comm (a b : ℚ) :
    (crossDiff a b).natAbs = (crossDiff b a).natAbs := by
  have h : crossDiff b a = -(crossDiff a b) := by
    rw [crossDiff, crossDiff]; ring
  rw [h, Int.natAbs_neg]

theorem absTolExceeded_comm (a b : ℚ) :
    absTolExceeded a b = absTolExceeded b a := by
  unfold absTolExceeded
  rw [crossDiff_natAbs_comm, Nat.mul_comm a.den b.den]

theorem relCmpExceeded_comm (m : ℕ) (a b : ℚ) :
    relCmpExceeded m a b = relCmpExceeded m b a := by
  unfold relCmpExceeded
  rw [crossDiff_natAbs_comm]
  exact Bool.or_comm _ _

theorem valuesDisagree_comm (a b : ℚ) :
    valuesDisagree a b = valuesDisagree b a := by
  unfold valuesDisagree
  rw [Bool.or_comm, absTolExceeded_comm, relCmpExceeded_comm]

theorem windowsOverlap_comm (w1 w2 : Option (ℤ × ℤ)) :
    windowsOverlap w1 w2 = windowsOverlap w2 w1 := by
  rcases w1 with _ | ⟨s1, e1⟩ <;> rcases w2 with _ | ⟨s2, e2⟩ <;>
    simp [windowsOverlap, Bool.and_comm]

theorem unitsComparable_comm (u1 u2 : UnitType) :
    unitsComparable u1 u2 = unitsComparable u2 u1 := by
  cases u1 <;> cases u2 <;> rfl

theorem metricPairConflict_comm (m1 m2 : NormalizedMetric) :
    metricPairConflict m1 m2 = metricPairConflict m2 m1 := by
  rcases h1 : m1.valueNumeric with _ | a <;> rcases h2 : m2.valueNumeric with _ | b <;>
    simp only [metricPairConflict, h1, h2]
  rw [windowsOverlap_comm, unitsComparable_comm, valuesDisagree_comm]

theorem metricAdj_symm (m1 m2 : NormalizedMetric) :
    metricAdj m1 m2 = metricAdj m2 m1 := by
  unfold metricAdj
  rw [metricPairConflict_comm, decide_eq_decide.2 ne_comm]

theorem claimsContradictory_comm (c1 c2 : NormalizedClaim) :
    claimsContradictory c1 c2 = claimsContradictory c2 c1 := by
  rw [Bool.eq_iff_iff]
  simp only [claimsContradictory, Bool.and_eq_true, Bool.not_eq_true',
    decide_eq_true_eq, decide_eq_false_iff_not]
  rw [windowsOverlap_comm]
  constructor
  · rintro ⟨⟨⟨hov, hne⟩, h1⟩, h2⟩
    exact ⟨⟨⟨hov, hne.symm⟩, h2⟩, h1⟩
  · rintro ⟨⟨⟨hov, hne⟩, h1⟩, h2⟩
    exact ⟨⟨⟨hov, hne.symm⟩, h2⟩, h1⟩

theorem claimAdj_symm (c1 c2 : NormalizedClaim) :
    claimAdj c1 c2 = claimAdj c2 c1 := by
  unfold claimAdj
  rw [claimsContradictory_comm, decide_eq_decide.2 ne_comm]

/-! ## Lemmas: counting helpers -/

theorem countP_flatMap_eq {γ δ : Type} (p : δ → Bool) (f : γ → List δ) :
    ∀ L : List γ, (L.flatMap f).countP p = (L.map (fun x => (f x).countP p)).sum := by
  intro L
  induction L with
  | nil => rfl
  | cons a t ih =>
    rw [List.flatMap_cons, List.countP_append, List.map_cons, List.sum_cons, ih]

theorem countP_eq_one_of_unique {γ : Type} (p : γ → Bool) :
    ∀ {L : List γ}, L.Nodup → ∀ {x}, x ∈ L → p x = true →
      (∀ y ∈ L, p y = true → y = x) → L.countP p = 1 := by
  intro L
  induction L with
  | nil =>
    intro _ x hx
    exact absurd hx (List.not_mem_nil x)
  | cons a t ih =>
    intro hnd x hx hpx huniq
    rw [List.nodup_cons] at hnd
    rw [List.countP_cons]
    by_cases hpa : p a = true
    · have hax : a = x := huniq a (List.mem_cons_self _ _) hpa
      have ht0 : t.countP p = 0 := by
        rw [List.countP_eq_zero]
        intro y hy hpy
        have hyx : y = x := huniq y (List.mem_cons_of_mem _ hy) hpy
        exact hnd.1 (by rw [hax, ← hyx]; exact hy)
      simp [ht0, hpa]
    · have hxt : x ∈ t := by
        rcases List.mem_cons.1 hx with rfl | h
        · exact absurd hpx hpa
        · exact h
      rw [ih hnd.2 hxt hpx (fun y hy hpy => huniq y (List.mem_cons_of_mem _ hy) hpy)]
      simp [hpa]

theorem sum_eq_one_of_single {γ : Type} (g : γ → ℕ) :
    ∀ {ks : List γ}, ks.Nodup → ∀ {k0}, k0 ∈ ks → g k0 = 1 →
      (∀ k ∈ ks, k ≠ k0 → g k = 0) → (ks.map g).sum = 1 := by
  intro ks
  induction ks with
  | nil =>
    intro _ k0 hk0
    exact absurd hk0 (List.not_mem_nil k0)
  | cons a t ih =>
    intro hnd k0 hk0 h1 h0
    rw [List.nodup_cons] at hnd
    rw [List.map_cons, List.sum_cons]
    rcases List.mem_cons.1 hk0 with rfl | hk0t
    · have ht : (t.map g).sum = 0 := by
        rw [List.sum_eq_zero_iff]
        intro n hn
        rcases List.mem_map.1 hn with ⟨k, hk, rfl⟩
        exact h0 k (List.mem_cons_of_mem _ hk) (fun hkk => hnd.1 (hkk ▸ hk))
      rw [h1, ht]
    · have ha : g a = 0 :=
        h0 a (List.mem_cons_self _ _) (fun haa => hnd.1 (haa ▸ hk0t))
      rw [ha, ih hnd.2 hk0t h1
        (fun k hk hne => h0 k (List.mem_cons_of_mem _ hk) hne)]

theorem exists_other_mem {γ : Type} :
    ∀ {q : List γ}, 2 ≤ q.length → q.Nodup → ∀ {x}, x ∈ q → ∃ y ∈ q, y ≠ x := by
  intro q
  match q with
  | [] => intro h; simp at h
  | [a] => intro h; simp at h
  | a :: b :: t =>
    intro _ hnd x hx
    rw [List.nodup_cons] at hnd
    by_cases hax : a = x
    · refine ⟨b, List.mem_cons_of_mem _ (List.mem_cons_self _ _), ?_⟩
      intro hbx
      exact hnd.1 (by rw [hax, ← hbx]; exact List.mem_cons_self _ _)
    · exact ⟨a, List.mem_cons_self _ _, hax⟩

/-! ## Lemmas: the grouped clique detector -/

theorem mem_groupedConflicts {β : Type} [DecidableEq β] {key : β → String × String}
    {adj : β → β → Bool} {mk : String × String → List β → Conflict} {l : List β}
    {c : Conflict} :
    c ∈ groupedConflicts key adj mk l ↔
      ∃ k q, k ∈ (l.map key).dedup ∧
        q ∈ CliqueGraph.maximalCliques adj (l.filter (fun x => decide (key x = k))) ∧
        c = mk k q := by
  unfold groupedConflicts
  rw [List.mem_flatMap]
  constructor
  · rintro ⟨k, hk, hc⟩
    rcases List.mem_map.1 hc with ⟨q, hq, rfl⟩
    exact ⟨k, q, hk, hq, rfl⟩
  · rintro ⟨k, q, hk, hq, rfl⟩
    exact ⟨k, hk, List.mem_map_of_mem _ hq⟩

theorem group_mem {β : Type} [DecidableEq β] {key : β → String × String}
    {l : List β} {k : String × String} {x : β} :
    x ∈ l.filter (fun z => decide (key z = k)) ↔ x ∈ l ∧ key x = k := by
  rw [List.mem_filter, decide_eq_true_eq]

/-- A fact of a reported conflicting clique belongs to the input list and to
the clique's group. -/
theorem clique_fact_mem {β : Type} [DecidableEq β] {adj : β → β → Bool}
    {key : β → String × String} {l : List β} {k : String × String} {q : List β}
    (hq : q ∈ CliqueGraph.maximalCliques adj (l.filter (fun z => decide (key z = k))))
    {x : β} (hxq : x ∈ q) : x ∈ l ∧ key x = k := by
  have hsub := ((CliqueGraph.mem_maximalCliques _ _ _).1 hq).1
  exact group_mem.1 (hsub.subset hxq)

/-- Reported pairs characterization: two facts of the input with distinct
ids appear together in some reported conflict exactly when they share a
group key and are adjacent. -/
theorem groupedConflicts_pair_iff {β : Type} [DecidableEq β]
    (key : β → String × String) (adj : β → β → Bool)
    (mk : String × String → List β → Conflict) (f : β → ℕ)
    {l : List β} (hfid : (l.map f).Nodup)
    (hsym : ∀ a b, adj a b = adj b a)
    (hmk : ∀ k q, (mk k q).involvedFacts = q.map f)
    {x y : β} (hx : x ∈ l) (hy : y ∈ l) (hne : f x ≠ f y) :
    (∃ c ∈ groupedConflicts key adj mk l,
        f x ∈ c.involvedFacts ∧ f y ∈ c.involvedFacts) ↔
      key x = key y ∧ adj x y = true := by
  have hlnd : l.Nodup := hfid.of_map
  have hinj : ∀ u ∈ l, ∀ v ∈ l, f u = f v → u = v :=
    fun u hu v hv huv => List.inj_on_of_nodup_map hfid hu hv huv
  constructor
  · rintro ⟨c, hc, hfx, hfy⟩
    rcases mem_groupedConflicts.1 hc with ⟨k, q, hk, hq, rfl⟩
    rw [hmk] at hfx hfy
    rcases List.mem_map.1 hfx with ⟨x', hx'q, hx'⟩
    rcases List.mem_map.1 hfy with ⟨y', hy'q, hy'⟩
    rcases clique_fact_mem hq hx'q with ⟨hx'l, hkx'⟩
    rcases clique_fact_mem hq hy'q with ⟨hy'l, hky'⟩
    have hxx : x' = x := hinj x' hx'l x hx hx'
    have hyy : y' = y := hinj y' hy'l y hy hy'
    have hcl := ((CliqueGraph.mem_maximalCliques _ _ _).1 hq).2.2.1
    have hxyne : x ≠ y := fun h => hne (congrArg f h)
    exact ⟨(hxx ▸ hkx' : key x = k).trans ((hyy ▸ hky' : key y = k)).symm,
      hcl.adj_of_mem hsym (hxx ▸ hx'q) (hyy ▸ hy'q) hxyne⟩
  · rintro ⟨hkey, hadj⟩
    have hgx : x ∈ l.filter (fun z => decide (key z = key x)) :=
      group_mem.2 ⟨hx, rfl⟩
    have hgy : y ∈ l.filter (fun z => decide (key z = key x)) :=
      group_mem.2 ⟨hy, hkey.symm⟩
    have hgnd : (l.filter (fun z => decide (key z = key x))).Nodup := hlnd.filter _
    have hxyne : x ≠ y := fun h => hne (congrArg f h)
    obtain ⟨q, hq, hxq, hyq⟩ :=
      CliqueGraph.exists_maximalClique_containing hsym hgnd hgx hgy hxyne hadj
    refine ⟨mk (key x) q,
      mem_groupedConflicts.2 ⟨key x, q,
        List.mem_dedup.2 (List.mem_map_of_mem key hx), hq, rfl⟩, ?_, ?_⟩
    · rw [hmk]
      exact List.mem_map_of_mem f hxq
    · rw [hmk]
      exact List.mem_map_of_mem f hyq

/-- Every id referenced by a reported conflict is the id of an input fact. -/
theorem groupedConflicts_involved_subset {β : Type} [DecidableEq β]
    {key : β → String × String} {adj : β → β → Bool}
    {mk : String × String → List β → Conflict} (f : β → ℕ)
    (hmk : ∀ k q, (mk k q).involvedFacts = q.map f)
    {l : List β} {c : Conflict} (hc : c ∈ groupedConflicts key adj mk l) :
    ∀ i ∈ c.involvedFacts, i ∈ l.map f := by
  rcases mem_groupedConflicts.1 hc with ⟨k, q, hk, hq, rfl⟩
  intro i hi
  rw [hmk] at hi
  rcases List.mem_map.1 hi with ⟨x, hxq, rfl⟩
  exact List.mem_map_of_mem f (clique_fact_mem hq hxq).1

/-- Every id referenced by a reported conflict belongs to a fact that is
adjacent to another input fact. -/
theorem groupedConflicts_exists_adj {β : Type} [DecidableEq β]
    {key : β → String × String} {adj : β → β → Bool}
    {mk : String × String → List β → Conflict} (f : β → ℕ)
    (hsym : ∀ a b, adj a b = adj b a)
    (hmk : ∀ k q, (mk k q).involvedFacts = q.map f)
    {l : List β} (hlnd : l.Nodup) {c : Conflict}
    (hc : c ∈ groupedConflicts key adj mk l) {i : ℕ} (hi : i ∈ c.involvedFacts) :
    ∃ x y, x ∈ l ∧ y ∈ l ∧ f x = i ∧ x ≠ y ∧ adj x y = true := by
  rcases mem_groupedConflicts.1 hc with ⟨k, q, hk, hq, rfl⟩
  rw [hmk] at hi
  rcases List.mem_map.1 hi with ⟨x, hxq, rfl⟩
  rcases (CliqueGraph.mem_maximalCliques _ _ _).1 hq with ⟨hsub, hlen, hcl, _⟩
  have hqnd : q.Nodup := (hlnd.filter _).sublist hsub
  obtain ⟨y, hyq, hyx⟩ := exists_other_mem hlen hqnd hxq
  refine ⟨x, y, (clique_fact_mem hq hxq).1, (clique_fact_mem hq hyq).1, rfl,
    fun h => hyx h.symm, hcl.adj_of_mem hsym hxq hyq (fun h => hyx h.symm)⟩

/-- Exactly one conflict is reported per maximal clique: counting reported
conflicts by involved-fact list. -/
theorem groupedConflicts_countP_involved {β : Type} [DecidableEq β]
    (key : β → String × String) (adj : β → β → Bool)
    (mk : String × String → List β → Conflict) (f : β → ℕ)
    {l : List β} (hfid : (l.map f).Nodup)
    (hmk : ∀ k q, (mk k q).involvedFacts = q.map f)
    {k0 : String × String} {q0 : List β}
    (hk0 : k0 ∈ (l.map key).dedup)
    (hq0 : q0 ∈ CliqueGraph.maximalCliques adj (l.filter (fun x => decide (key x = k0)))) :
    (groupedConflicts key adj mk l).countP
      (fun c => decide (c.involvedFacts = q0.map f)) = 1 := by
  have hlnd : l.Nodup := hfid.of_map
  have hinj : ∀ u ∈ l, ∀ v ∈ l, f u = f v → u = v :=
    fun u hu v hv huv => List.inj_on_of_nodup_map hfid hu hv huv
  have hq0sub : q0.Sublist l :=
    ((CliqueGraph.mem_maximalCliques _ _ _).1 hq0).1.trans (List.filter_sublist l)
  have hq0len : 2 ≤ q0.length := ((CliqueGraph.mem_maximalCliques _ _ _).1 hq0).2.1
  -- a clique of any group with the same id list is q0 itself, in the same group
  have huniq : ∀ k, k ∈ (l.map key).dedup →
      ∀ q ∈ CliqueGraph.maximalCliques adj (l.filter (fun x => decide (key x = k))),
        q.map f = q0.map f → q = q0 ∧ k = k0 := by
    intro k hk q hq hmap
    have hqsub : q.Sublist l :=
      ((CliqueGraph.mem_maximalCliques _ _ _).1 hq).1.trans (List.filter_sublist l)
    have hmem : ∀ x, x ∈ q ↔ x ∈ q0 := by
      intro x
      constructor
      · intro hxq
        have : f x ∈ q0.map f := hmap ▸ List.mem_map_of_mem f hxq
        rcases List.mem_map.1 this with ⟨y, hy, hyx⟩
        have : y = x := hinj y (hq0sub.subset hy) x (hqsub.subset hxq) hyx
        exact this ▸ hy
      · intro hxq0
        have : f x ∈ q.map f := hmap.symm ▸ List.mem_map_of_mem f hxq0
        rcases List.mem_map.1 this with ⟨y, hy, hyx⟩
        have : y = x := hinj y (hqsub.subset hy) x (hq0sub.subset hxq0) hyx
        exact this ▸ hy
    have hqq0 : q = q0 := CliqueGraph.sublist_eq_of_mem_iff hlnd hqsub hq0sub hmem
    subst hqq0
    refine ⟨rfl, ?_⟩
    have hz : ∃ z, z ∈ q := by
      rcases q with _ | ⟨z, t⟩
      · simp at hq0len
      · exact ⟨z, List.mem_cons_self _ _⟩
    rcases hz with ⟨z, hz⟩
    have h1 := (clique_fact_mem hq hz).2
    have h2 := (clique_fact_mem hq0 hz).2
    rw [← h1, ← h2]
  unfold groupedConflicts
  rw [countP_flatMap_eq]
  refine sum_eq_one_of_single _ (List.nodup_dedup _) hk0 ?_ ?_
  · rw [List.countP_map]
    refine countP_eq_one_of_unique _
      (CliqueGraph.nodup_maximalCliques adj (hlnd.filter _)) hq0 ?_ ?_
    · simp only [Function.comp_apply, hmk, decide_eq_true_eq]
    · intro q hq hpq
      simp only [Function.comp_apply, hmk, decide_eq_true_eq] at hpq
      exact (huniq k0 hk0 q hq hpq).1
  · intro k hk hkne
    rw [List.countP_map, List.countP_eq_zero]
    intro q hq hpq
    simp only [Function.comp_apply, hmk, decide_eq_true_eq] at hpq
    exact hkne (huniq k hk q hq hpq).2

/-! ## Lemmas: from the assembled analysis back to the detectors -/

theorem normalize_metric_fid (m : RawMetric) :
    (normalize_metric m).fid = m.fid := rfl

theorem normalize_claim_fid (c : RawClaim) :
    (normalize_claim c).fid = c.fid := rfl

theorem mkMetricConflict_involved :
    ∀ k q, (mkMetricConflict k q).involvedFacts = q.map (fun m => m.fid) :=
  fun _ _ => rfl

theorem mkClaimConflict_involved :
    ∀ k q, (mkClaimConflict k q).involvedFacts = q.map (fun c => c.fid) :=
  fun _ _ => rfl

theorem normalizedMetricsOf_fid_perm (input : FactInput) :
    List.Perm ((normalizedMetricsOf input).map (fun m => m.fid))
      (input.metrics.map RawMetric.fid) := by
  unfold normalizedMetricsOf sortMetricsByFid
  rw [List.map_map]
  exact (List.perm_insertionSort _ input.metrics).map RawMetric.fid

theorem normalizedClaimsOf_fid_perm (input : FactInput) :
    List.Perm ((normalizedClaimsOf input).map (fun c => c.fid))
      (input.claims.map RawClaim.fid) := by
  unfold normalizedClaimsOf sortClaimsByFid
  rw [List.map_map]
  exact (List.perm_insertionSort _ input.claims).map RawClaim.fid

theorem normalizedMetricsOf_fid_nodup {input : FactInput}
    (h : (input.metrics.map RawMetric.fid).Nodup) :
    ((normalizedMetricsOf input).map (fun m => m.fid)).Nodup :=
  ((normalizedMetricsOf_fid_perm input).nodup_iff).2 h

theorem normalizedClaimsOf_fid_nodup {input : FactInput}
    (h : (input.claims.map RawClaim.fid).Nodup) :
    ((normalizedClaimsOf input).map (fun c => c.fid)).Nodup :=
  ((normalizedClaimsOf_fid_perm input).nodup_iff).2 h

theorem mem_normalizedMetricsOf {input : FactInput} {m : RawMetric}
    (h : m ∈ input.metrics) : normalize_metric m ∈ normalizedMetricsOf input := by
  unfold normalizedMetricsOf sortMetricsByFid
  exact List.mem_map_of_mem _ ((List.perm_insertionSort _ input.metrics).mem_iff.2 h)

theorem mem_normalizedClaimsOf {input : FactInput} {c : RawClaim}
    (h : c ∈ input.claims) : normalize_claim c ∈ normalizedClaimsOf input := by
  unfold normalizedClaimsOf sortClaimsByFid
  exact List.mem_map_of_mem _ ((List.perm_insertionSort _ input.claims).mem_iff.2 h)

theorem analyze_conflicts_eq (vocab : Vocabulary) (now : ℤ) (scope : ScopeFilter)
    (input : FactInput) :
    (analyze vocab now scope input).conflicts =
      (metricConflicts (normalizedMetricsOf input) ++
        claimConflicts (normalizedClaimsOf input)).insertionSort conflictLE := rfl

theorem analyze_questions_eq (vocab : Vocabulary) (now : ℤ) (scope : ScopeFilter)
    (input : FactInput) :
    (analyze vocab now scope input).openQuestions =
      ((normalizedMetricsOf input).flatMap (questionsForMetric vocab now) ++
        (normalizedClaimsOf input).flatMap (questionsForClaim now)).insertionSort
        questionLE := rfl

theorem mem_analyze_conflicts {vocab : Vocabulary} {now : ℤ} {scope : ScopeFilter}
    {input : FactInput} {c : Conflict} :
    c ∈ (analyze vocab now scope input).conflicts ↔
      c ∈ metricConflicts (normalizedMetricsOf input) ∨
        c ∈ claimConflicts (normalizedClaimsOf input) := by
  rw [analyze_conflicts_eq, (List.perm_insertionSort _ _).mem_iff, List.mem_append]

theorem mem_analyze_questions {vocab : Vocabulary} {now : ℤ} {scope : ScopeFilter}
    {input : FactInput} {q : OpenQuestion} :
    q ∈ (analyze vocab now scope input).openQuestions ↔
      q ∈ (normalizedMetricsOf input).flatMap (questionsForMetric vocab now) ∨
        q ∈ (normalizedClaimsOf input).flatMap (questionsForClaim now) := by
  rw [analyze_questions_eq, (List.perm_insertionSort _ _).mem_iff, List.mem_append]

theorem metricConflicts_conflictType {ms : List NormalizedMetric} {c : Conflict}
    (hc : c ∈ metricConflicts ms) :
    c.conflictType = ConflictType.metricValueConflict := by
  rcases mem_groupedConflicts.1 hc with ⟨k, q, _, _, rfl⟩
  rfl

theorem claimConflicts_conflictType {cs : List NormalizedClaim} {c : Conflict}
    (hc : c ∈ claimConflicts cs) :
    c.conflictType = ConflictType.claimContradiction := by
  rcases mem_groupedConflicts.1 hc with ⟨k, q, _, _, rfl⟩
  rfl

/-- Restricting the assembled conflicts to metric-value conflicts recovers
exactly the metric detector's output. -/
theorem analyze_metric_pair_exists_iff {vocab : Vocabulary} {now : ℤ}
    {scope : ScopeFilter} {input : FactInput} {i j : ℕ} :
    (∃ c ∈ (analyze vocab now scope input).conflicts,
        c.conflictType = ConflictType.metricValueConflict ∧
        i ∈ c.involvedFacts ∧ j ∈ c.involvedFacts) ↔
      (∃ c ∈ metricConflicts (normalizedMetricsOf input),
        i ∈ c.involvedFacts ∧ j ∈ c.involvedFacts) := by
  constructor
  · rintro ⟨c, hc, hty, hi, hj⟩
    rcases mem_analyze_conflicts.1 hc with h | h
    · exact ⟨c, h, hi, hj⟩
    · rw [claimConflicts_conflictType h] at hty
      exact absurd hty (by simp)
  · rintro ⟨c, hc, hi, hj⟩
    exact ⟨c, mem_analyze_conflicts.2 (Or.inl hc), metricConflicts_conflictType hc, hi, hj⟩

theorem analyze_claim_pair_exists_iff {vocab : Vocabulary} {now : ℤ}
    {scope : ScopeFilter} {input : FactInput} {i j : ℕ} :
    (∃ c ∈ (analyze vocab now scope input).conflicts,
        c.conflictType = ConflictType.claimContradiction ∧
        i ∈ c.involvedFacts ∧ j ∈ c.involvedFacts) ↔
      (∃ c ∈ claimConflicts (normalizedClaimsOf input),
        i ∈ c.involvedFacts ∧ j ∈ c.involvedFacts) := by
  constructor
  · rintro ⟨c, hc, hty, hi, hj⟩
    rcases mem_analyze_conflicts.1 hc with h | h
    · rw [metricConflicts_conflictType h] at hty
      exact absurd hty (by simp)
    · exact ⟨c, h, hi, hj⟩
  · rintro ⟨c, hc, hi, hj⟩
    exact ⟨c, mem_analyze_conflicts.2 (Or.inr hc), claimConflicts_conflictType hc, hi, hj⟩

/-- The implemented disagreement test agrees with the specification's
tolerance statement: more than 5% relative difference, or more than 0.01
absolute difference when either value is approximately zero. -/
theorem valuesDisagree_iff (a b : ℚ) :
    valuesDisagree a b = true ↔
      (if |a| < 1 / 100 ∨ |b| < 1 / 100 then 1 / 100 < |a - b|
       else (5 / 100 : ℚ) * min |a| |b| < |a - b|) := by
  unfold valuesDisagree
  by_cases h : (approxZero a || approxZero b) = true
  · rw [if_pos h]
    have hc : |a| < 1 / 100 ∨ |b| < 1 / 100 := by
      have h' : approxZero a = true ∨ approxZero b = true := by simpa using h
      rcases h' with h1 | h1
      · exact Or.inl ((approxZero_iff a).1 h1)
      · exact Or.inr ((approxZero_iff b).1 h1)
    rw [if_pos hc]
    exact absTolExceeded_iff a b
  · rw [if_neg h]
    have hc : ¬(|a| < 1 / 100 ∨ |b| < 1 / 100) := by
      intro hcon
      apply h
      have h' : approxZero a = true ∨ approxZero b = true := by
        rcases hcon with h1 | h1
        · exact Or.inl ((approxZero_iff a).2 h1)
        · exact Or.inr ((approxZero_iff b).2 h1)
      simpa using h'
    rw [if_neg hc]
    rw [relCmpExceeded_iff a b 20 (by norm_num)]
    rw [show ((1 : ℚ) / (20 : ℕ)) = 5 / 100 by norm_num]

theorem metricAdj_eq_valuesDisagree {m1 m2 : NormalizedMetric} {a b : ℚ}
    (hne : m1.fid ≠ m2.fid) (hv1 : m1.valueNumeric = some a)
    (hv2 : m2.valueNumeric = some b)
    (hov : windowsOverlap m1.window m2.window = true)
    (hu : unitsComparable m1.unitType m2.unitType = true) :
    metricAdj m1 m2 = valuesDisagree a b := by
  simp [metricAdj, metricPairConflict, hv1, hv2, hov, hu, hne]

/-- C1.  Within an `(entity_id, metric_name)` group, a pair of normalized
metrics with overlapping windows and comparable (or both unresolvable) units
is reported as a metric value conflict exactly when the parsed values differ
by strictly more than the 5% relative tolerance (0.01 absolute when either
value is approximately zero); exactly 5% apart (100 vs 105) is no conflict,
6% apart (100 vs 106) is a conflict of severity `medium`. -/
theorem spec_c1_metric_tolerance_boundary :
    (∀ (vocab : Vocabulary) (now : ℤ) (scope : ScopeFilter) (input : FactInput)
      (m1 m2 : RawMetric) (a b : ℚ),
      (input.metrics.map RawMetric.fid).Nodup →
      m1 ∈ input.metrics → m2 ∈ input.metrics → m1.fid ≠ m2.fid →
      metricGroupKey (normalize_metric m1) = metricGroupKey (normalize_metric m2) →
      windowsOverlap (normalize_metric m1).window (normalize_metric m2).window = true →
      unitsComparable (normalize_metric m1).unitType (normalize_metric m2).unitType = true →
      (normalize_metric m1).valueNumeric = some a →
      (normalize_metric m2).valueNumeric = some b →
      ((∃ c ∈ (analyze vocab now scope input).conflicts,
          c.conflictType = ConflictType.metricValueConflict ∧
          m1.fid ∈ c.involvedFacts ∧ m2.fid ∈ c.involvedFacts) ↔
        (if |a| < 1 / 100 ∨ |b| < 1 / 100 then 1 / 100 < |a - b|
         else (5 / 100 : ℚ) * min |a| |b| < |a - b|))) ∧
    (analyze sampleVocab 10 emptyScope
      { metrics := [sampleMetric 1 100, sampleMetric 2 105], claims := [] }).conflicts = [] ∧
    (analyze sampleVocab 10 emptyScope
      { metrics := [sampleMetric 1 100, sampleMetric 2 106], claims := [] }).conflicts.map
        (fun c => (c.conflictType, c.severity, c.involvedFacts)) =
      [(ConflictType.metricValueConflict, Severity.medium, [1, 2])] := by
  refine ⟨?_, by decide, by decide⟩
  intro vocab now scope input m1 m2 a b hnd h1 h2 hne hkey hov hu hv1 hv2
  rw [analyze_metric_pair_exists_iff]
  have hfid : ((normalizedMetricsOf input).map (fun m => m.fid)).Nodup :=
    normalizedMetricsOf_fid_nodup hnd
  have hpair := groupedConflicts_pair_iff metricGroupKey metricAdj mkMetricConflict
    (fun m => m.fid) hfid metricAdj_symm mkMetricConflict_involved
    (mem_normalizedMetricsOf h1) (mem_normalizedMetricsOf h2)
    (by simpa [normalize_metric_fid] using hne)
  rw [show m1.fid = (normalize_metric m1).fid from rfl,
    show m2.fid = (normalize_metric m2).fid from rfl]
  rw [show metricConflicts (normalizedMetricsOf input) =
    groupedConflicts metricGroupKey metricAdj mkMetricConflict
      (normalizedMetricsOf input) from rfl]
  rw [hpair, metricAdj_eq_valuesDisagree hne hv1 hv2 hov hu]
  rw [valuesDisagree_iff]
  simp [hkey]

/-- C1 witness: the 100-vs-106 pair instantiates the reported-conflict
direction of the tolerance characterization. -/
theorem spec_c1_metric_tolerance_boundary_witness :
    ∃ c ∈ (analyze sampleVocab 10 emptyScope
        { metrics := [sampleMetric 1 100, sampleMetric 2 106], claims := [] }).conflicts,
      c.conflictType = ConflictType.metricValueConflict ∧
      (sampleMetric 1 100).fid ∈ c.involvedFacts ∧
      (sampleMetric 2 106).fid ∈ c.involvedFacts :=
  (spec_c1_metric_tolerance_boundary.1 sampleVocab 10 emptyScope
    { metrics := [sampleMetric 1 100, sampleMetric 2 106], claims := [] }
    (sampleMetric 1 100) (sampleMetric 2 106) 100 106
    (by decide) (by decide) (by decide) (by decide)
    (by decide) (by decide) (by decide) (by decide) (by decide)).mpr
    (by norm_num)

theorem countP_congr_mem {γ : Type} {p q : γ → Bool} :
    ∀ {L : List γ}, (∀ a ∈ L, p a = q a) → L.countP p = L.countP q := by
  intro L
  induction L with
  | nil => intro _; rfl
  | cons a t ih =>
    intro h
    rw [List.countP_cons, List.countP_cons, h a (List.mem_cons_self _ _),
      ih (fun x hx => h x (List.mem_cons_of_mem _ hx))]

/-- C2.  The detector emits exactly one metric-value conflict per maximal
clique of mutually pairwise-conflicting metrics of a group (counted by the
involved-fact list), every reported metric-value conflict is the fid image
of such a maximal clique, and for the three-metric scenario A=100, B=100,
C=200 the output is exactly the two conflicts {A,C} and {B,C} and no
conflict spans three facts. -/
theorem spec_c2_one_conflict_per_maximal_clique :
    (∀ (vocab : Vocabulary) (now : ℤ) (scope : ScopeFilter) (input : FactInput)
      (k : String × String) (q0 : List NormalizedMetric),
      (input.metrics.map RawMetric.fid).Nodup →
      k ∈ ((normalizedMetricsOf input).map metricGroupKey).dedup →
      CliqueGraph.IsMaximalCliqueIn metricAdj
        (metricGroup (normalizedMetricsOf input) k) q0 →
      (analyze vocab now scope input).conflicts.countP
        (fun c => decide (c.conflictType = ConflictType.metricValueConflict ∧
          c.involvedFacts = q0.map (fun m => m.fid))) = 1) ∧
    (∀ (vocab : Vocabulary) (now : ℤ) (scope : ScopeFilter) (input : FactInput)
      (c : Conflict),
      c ∈ (analyze vocab now scope input).conflicts →
      c.conflictType = ConflictType.metricValueConflict →
      ∃ k q, k ∈ ((normalizedMetricsOf input).map metricGroupKey).dedup ∧
        CliqueGraph.IsMaximalCliqueIn metricAdj
          (metricGroup (normalizedMetricsOf input) k) q ∧
        c.involvedFacts = q.map (fun m => m.fid)) ∧
    ((analyze sampleVocab 10 emptyScope
      { metrics := [sampleMetric 1 100, sampleMetric 2 100, sampleMetric 3 200],
        claims := [] }).conflicts.map (fun c => c.involvedFacts) = [[1, 3], [2, 3]]) ∧
    ((analyze sampleVocab 10 emptyScope
      { metrics := [sampleMetric 1 100, sampleMetric 2 100, sampleMetric 3 200],
        claims := [] }).conflicts.countP
        (fun c => decide (3 ≤ c.involvedFacts.length)) = 0) := by
  refine ⟨?_, ?_, by decide, by decide⟩
  · intro vocab now scope input k q0 hnd hk hq0
    have hfid : ((normalizedMetricsOf input).map (fun m => m.fid)).Nodup :=
      normalizedMetricsOf_fid_nodup hnd
    have hq0m : q0 ∈ CliqueGraph.maximalCliques metricAdj
        ((normalizedMetricsOf input).filter (fun m => decide (metricGroupKey m = k))) :=
      (CliqueGraph.mem_maximalCliques _ _ _).2 hq0
    rw [analyze_conflicts_eq, (List.perm_insertionSort _ _).countP_eq,
      List.countP_append]
    have hclaim0 : (claimConflicts (normalizedClaimsOf input)).countP
        (fun c => decide (c.conflictType = ConflictType.metricValueConflict ∧
          c.involvedFacts = q0.map (fun m => m.fid))) = 0 := by
      rw [List.countP_eq_zero]
      intro c hc
      have hty := claimConflicts_conflictType hc
      simp [hty]
    have hmetric : (metricConflicts (normalizedMetricsOf input)).countP
        (fun c => decide (c.conflictType = ConflictType.metricValueConflict ∧
          c.involvedFacts = q0.map (fun m => m.fid))) = 1 := by
      have hcount := groupedConflicts_countP_involved metricGroupKey metricAdj
        mkMetricConflict (fun m => m.fid) hfid mkMetricConflict_involved hk hq0m
      rw [← hcount]
      apply countP_congr_mem
      intro c hc
      have hty := metricConflicts_conflictType hc
      simp [hty]
    rw [hclaim0, hmetric]
  · intro vocab now scope input c hc hty
    rcases mem_analyze_conflicts.1 hc with h | h
    · rcases mem_groupedConflicts.1 h with ⟨k, q, hk, hq, rfl⟩
      exact ⟨k, q, hk, (CliqueGraph.mem_maximalCliques _ _ _).1 hq,
        mkMetricConflict_involved k q⟩
    · rw [claimConflicts_conflictType h] at hty
      exact absurd hty (by simp)

/-- C2 witness: in the three-metric scenario the {A,C} maximal clique is
reported exactly once. -/
theorem spec_c2_one_conflict_per_maximal_clique_witness :
    (analyze sampleVocab 10 emptyScope
      { metrics := [sampleMetric 1 100, sampleMetric 2 100, sampleMetric 3 200],
        claims := [] }).conflicts.countP
      (fun c => decide (c.conflictType = ConflictType.metricValueConflict ∧
        c.involvedFacts =
          [normalize_metric (sampleMetric 1 100),
            normalize_metric (sampleMetric 3 200)].map (fun m => m.fid))) = 1 :=
  spec_c2_one_conflict_per_maximal_clique.1 sampleVocab 10 emptyScope
    { metrics := [sampleMetric 1 100, sampleMetric 2 100, sampleMetric 3 200],
      claims := [] }
    ("acme", "arr")
    [normalize_metric (sampleMetric 1 100), normalize_metric (sampleMetric 3 200)]
    (by decide) (by decide)
    ((CliqueGraph.mem_maximalCliques _ _ _).1 (by decide))

theorem metricPairConflict_overlap {m1 m2 : NormalizedMetric}
    (h : metricPairConflict m1 m2 = true) :
    windowsOverlap m1.window m2.window = true := by
  unfold metricPairConflict at h
  rcases hv1 : m1.valueNumeric with _ | a <;> rcases hv2 : m2.valueNumeric with _ | b <;>
    simp only [hv1, hv2] at h
  · simp at h
  · simp at h
  · simp at h
  · rw [Bool.and_eq_true, Bool.and_eq_true] at h
    exact h.1.1

/-- C3.  A pair of metrics of one group is only ever reported when their
windows overlap under `start_a <= end_b AND start_b <= end_a`; a missing
window matches every period; metrics over disjoint periods are never
reported together however different their values. -/
theorem spec_c3_overlap_required :
    (∀ (vocab : Vocabulary) (now : ℤ) (scope : ScopeFilter) (input : FactInput)
      (m1 m2 : RawMetric) (s1 e1 s2 e2 : ℤ),
      (input.metrics.map RawMetric.fid ++ input.claims.map RawClaim.fid).Nodup →
      m1 ∈ input.metrics → m2 ∈ input.metrics → m1.fid ≠ m2.fid →
      (normalize_metric m1).window = some (s1, e1) →
      (normalize_metric m2).window = some (s2, e2) →
      ¬(s1 ≤ e2 ∧ s2 ≤ e1) →
      ¬∃ c ∈ (analyze vocab now scope input).conflicts,
        m1.fid ∈ c.involvedFacts ∧ m2.fid ∈ c.involvedFacts) ∧
    (∀ w : Option (ℤ × ℤ), windowsOverlap none w = true ∧ windowsOverlap w none = true) ∧
    (∀ s1 e1 s2 e2 : ℤ, windowsOverlap (some (s1, e1)) (some (s2, e2)) = true ↔
      (s1 ≤ e2 ∧ s2 ≤ e1)) ∧
    (analyze sampleVocab 10 emptyScope
      { metrics := [sampleMetricAt 1 100 0 2, sampleMetricAt 2 300 6 8],
        claims := [] }).conflicts = [] := by
  refine ⟨?_, ?_, ?_, by decide⟩
  · intro vocab now scope input m1 m2 s1 e1 s2 e2 hnd h1 h2 hne hw1 hw2 hno
    rcases List.nodup_append.1 hnd with ⟨hmnd, hcnd, hdisj⟩
    rintro ⟨c, hc, h1f, h2f⟩
    rcases mem_analyze_conflicts.1 hc with h | h
    · have hfid : ((normalizedMetricsOf input).map (fun m => m.fid)).Nodup :=
        normalizedMetricsOf_fid_nodup hmnd
      have hpair := (groupedConflicts_pair_iff metricGroupKey metricAdj
        mkMetricConflict (fun m => m.fid) hfid metricAdj_symm mkMetricConflict_involved
        (mem_normalizedMetricsOf h1) (mem_normalizedMetricsOf h2)
        (by simpa [normalize_metric_fid] using hne)).1 ⟨c, h, h1f, h2f⟩
      have hadj := hpair.2
      unfold metricAdj at hadj
      rw [Bool.and_eq_true] at hadj
      have hpc := hadj.2
      have hov := metricPairConflict_overlap hpc
      rw [hw1, hw2] at hov
      simp only [windowsOverlap, Bool.and_eq_true, decide_eq_true_eq] at hov
      exact hno hov
    · have hsub := groupedConflicts_involved_subset (fun c => c.fid)
        mkClaimConflict_involved h m1.fid h1f
      have h1c : m1.fid ∈ input.claims.map RawClaim.fid :=
        (normalizedClaimsOf_fid_perm input).mem_iff.1 hsub
      exact hdisj (List.mem_map_of_mem RawMetric.fid h1) h1c
  · intro w
    exact ⟨rfl, by rcases w with _ | ⟨s, e⟩ <;> rfl⟩
  · intro s1 e1 s2 e2
    simp [windowsOverlap, Bool.and_eq_true, decide_eq_true_eq]

/-- C3 witness: a Q1 metric and a Q3 metric of very different values are
never reported together. -/
theorem spec_c3_overlap_required_witness :
    ¬∃ c ∈ (analyze sampleVocab 10 emptyScope
        { metrics := [sampleMetricAt 1 100 0 2, sampleMetricAt 2 300 6 8],
          claims := [] }).conflicts,
      (sampleMetricAt 1 100 0 2).fid ∈ c.involvedFacts ∧
      (sampleMetricAt 2 300 6 8).fid ∈ c.involvedFacts :=
  spec_c3_overlap_required.1 sampleVocab 10 emptyScope
    { metrics := [sampleMetricAt 1 100 0 2, sampleMetricAt 2 300 6 8], claims := [] }
    (sampleMetricAt 1 100 0 2) (sampleMetricAt 2 300 6 8) 0 2 6 8
    (by decide) (by decide) (by decide) (by decide) (by decide) (by decide) (by decide)

theorem claimsContradictory_iff {c1 c2 : NormalizedClaim} :
    claimsContradictory c1 c2 = true ↔
      windowsOverlap c1.window c2.window = true ∧ c1.value ≠ c2.value ∧
        c1.value ≠ NormalizedValue.vunknown ∧ c2.value ≠ NormalizedValue.vunknown := by
  simp only [claimsContradictory, Bool.and_eq_true, Bool.not_eq_true',
    decide_eq_true_eq, decide_eq_false_iff_not, and_assoc]

/-- C4.  Two claims of one `(subject identity, predicate)` group with
overlapping time scopes are reported as a claim contradiction exactly when
their resolved values differ and neither is `unknown`; a claim whose
normalized value is `unknown` never appears in any reported claim
contradiction. -/
theorem spec_c4_claim_contradiction :
    (∀ (vocab : Vocabulary) (now : ℤ) (scope : ScopeFilter) (input : FactInput)
      (r1 r2 : RawClaim),
      (input.claims.map RawClaim.fid).Nodup →
      r1 ∈ input.claims → r2 ∈ input.claims → r1.fid ≠ r2.fid →
      claimGroupKey (normalize_claim r1) = claimGroupKey (normalize_claim r2) →
      windowsOverlap (normalize_claim r1).window (normalize_claim r2).window = true →
      ((∃ c ∈ (analyze vocab now scope input).conflicts,
          c.conflictType = ConflictType.claimContradiction ∧
          r1.fid ∈ c.involvedFacts ∧ r2.fid ∈ c.involvedFacts) ↔
        ((normalize_claim r1).value ≠ (normalize_claim r2).value ∧
         (normalize_claim r1).value ≠ NormalizedValue.vunknown ∧
         (normalize_claim r2).value ≠ NormalizedValue.vunknown))) ∧
    (∀ (vocab : Vocabulary) (now : ℤ) (scope : ScopeFilter) (input : FactInput)
      (r : RawClaim),
      (input.claims.map RawClaim.fid).Nodup →
      r ∈ input.claims →
      (normalize_claim r).value = NormalizedValue.vunknown →
      ∀ c ∈ (analyze vocab now scope input).conflicts,
        c.conflictType = ConflictType.claimContradiction →
        r.fid ∉ c.involvedFacts) ∧
    ((analyze sampleVocab 10 emptyScope
      { metrics := [],
        claims := [sampleClaim 1 (some "true"), sampleClaim 2 (some "false")] }).conflicts.map
        (fun c => (c.conflictType, c.involvedFacts)) =
      [(ConflictType.claimContradiction, [1, 2])]) ∧
    ((analyze sampleVocab 10 emptyScope
      { metrics := [],
        claims := [sampleClaim 1 (some "true"), sampleClaim 2 none] }).conflicts = []) := by
  refine ⟨?_, ?_, by decide, by decide⟩
  · intro vocab now scope input r1 r2 hnd h1 h2 hne hkey hov
    rw [analyze_claim_pair_exists_iff]
    have hne' : (normalize_claim r1).fid ≠ (normalize_claim r2).fid := by
      simpa [normalize_claim_fid] using hne
    have hpair := groupedConflicts_pair_iff claimGroupKey claimAdj mkClaimConflict
      (fun x => x.fid) (normalizedClaimsOf_fid_nodup hnd) claimAdj_symm
      mkClaimConflict_involved (mem_normalizedClaimsOf h1) (mem_normalizedClaimsOf h2) hne'
    rw [show r1.fid = (normalize_claim r1).fid from rfl,
      show r2.fid = (normalize_claim r2).fid from rfl]
    rw [show claimConflicts (normalizedClaimsOf input) =
      groupedConflicts claimGroupKey claimAdj mkClaimConflict
        (normalizedClaimsOf input) from rfl]
    rw [hpair]
    simp only [hkey, true_and, claimAdj, Bool.and_eq_true, decide_eq_true_eq]
    simp [hne', claimsContradictory_iff, hov]
  · intro vocab now scope input r hnd hr hunk c hc hty hmem
    rcases mem_analyze_conflicts.1 hc with h | h
    · rw [metricConflicts_conflictType h] at hty
      exact absurd hty (by simp)
    · have hlnd : (normalizedClaimsOf input).Nodup :=
        (normalizedClaimsOf_fid_nodup hnd).of_map
      obtain ⟨x, y, hx, hy, hfx, hxy, hadj⟩ := groupedConflicts_exists_adj
        (fun z => z.fid) claimAdj_symm mkClaimConflict_involved hlnd h hmem
      have hxr : x = normalize_claim r :=
        List.inj_on_of_nodup_map (normalizedClaimsOf_fid_nodup hnd) hx
          (mem_normalizedClaimsOf hr) (by rw [normalize_claim_fid]; exact hfx)
      unfold claimAdj at hadj
      rw [Bool.and_eq_true] at hadj
      have hcontra := claimsContradictory_iff.1 hadj.2
      apply hcontra.2.2.1
      rw [hxr]
      exact hunk

/-- C4 witness: the true/false `has_soc2` pair instantiates the reported
direction of the contradiction characterization. -/
theorem spec_c4_claim_contradiction_witness :
    ∃ c ∈ (analyze sampleVocab 10 emptyScope
        { metrics := [],
          claims := [sampleClaim 1 (some "true"), sampleClaim 2 (some "false")] }).conflicts,
      c.conflictType = ConflictType.claimContradiction ∧
      (sampleClaim 1 (some "true")).fid ∈ c.involvedFacts ∧
      (sampleClaim 2 (some "false")).fid ∈ c.involvedFacts :=
  (spec_c4_claim_contradiction.1 sampleVocab 10 emptyScope
    { metrics := [],
      claims := [sampleClaim 1 (some "true"), sampleClaim 2 (some "false")] }
    (sampleClaim 1 (some "true")) (sampleClaim 2 (some "false"))
    (by decide) (by decide) (by decide) (by decide) (by decide) (by decide)).mpr
    (by decide)

/-! ## Lemmas: open-question rules -/

theorem mem_rule_missingUnit {m : NormalizedMetric} {q : OpenQuestion}
    (h : q ∈ ruleMissingUnit m) :
    q.relatedFactId = m.fid ∧ q.category = QuestionCategory.missingUnit := by
  unfold ruleMissingUnit at h
  split at h
  · rw [List.mem_singleton] at h
    subst h
    exact ⟨rfl, rfl⟩
  · exact absurd h (List.not_mem_nil q)

theorem mem_rule_missingCurrency {vocab : Vocabulary} {m : NormalizedMetric}
    {q : OpenQuestion} (h : q ∈ ruleMissingCurrency vocab m) :
    q.relatedFactId = m.fid ∧ q.category = QuestionCategory.missingCurrency := by
  unfold ruleMissingCurrency at h
  split at h
  · rw [List.mem_singleton] at h
    subst h
    exact ⟨rfl, rfl⟩
  · exact absurd h (List.not_mem_nil q)

theorem mem_rule_missingPeriod {vocab : Vocabulary} {m : NormalizedMetric}
    {q : OpenQuestion} (h : q ∈ ruleMissingPeriod vocab m) :
    q.relatedFactId = m.fid ∧ q.category = QuestionCategory.missingPeriod := by
  unfold ruleMissingPeriod at h
  split at h
  · rw [List.mem_singleton] at h
    subst h
    exact ⟨rfl, rfl⟩
  · exact absurd h (List.not_mem_nil q)

theorem mem_rule_staleMetric {vocab : Vocabulary} {now : ℤ} {m : NormalizedMetric}
    {q : OpenQuestion} (h : q ∈ ruleStaleMetric vocab now m) :
    q.relatedFactId = m.fid ∧ q.category = QuestionCategory.staleData ∧
      isStale now (staleRefDate m.window m.extractedAt) = true ∧
      q.priority =
        (if vocab.isCritical m.metricName then Priority.high else Priority.medium) := by
  unfold ruleStaleMetric at h
  by_cases hc : isStale now (staleRefDate m.window m.extractedAt) = true
  · rw [if_pos hc, List.mem_singleton] at h
    subst h
    exact ⟨rfl, rfl, hc, rfl⟩
  · rw [if_neg hc] at h
    exact absurd h (List.not_mem_nil q)

theorem mem_rule_ambiguousValue {m : NormalizedMetric} {q : OpenQuestion}
    (h : q ∈ ruleAmbiguousValue m) :
    q.relatedFactId = m.fid ∧ q.category = QuestionCategory.ambiguousValue := by
  unfold ruleAmbiguousValue at h
  split at h
  · rw [List.mem_singleton] at h
    subst h
    exact ⟨rfl, rfl⟩
  · exact absurd h (List.not_mem_nil q)

theorem mem_rule_missingEvidenceMetric {m : NormalizedMetric} {q : OpenQuestion}
    (h : q ∈ ruleMissingEvidenceMetric m) :
    q.relatedFactId = m.fid ∧ q.category = QuestionCategory.missingEvidence := by
  unfold ruleMissingEvidenceMetric at h
  split at h
  · rw [List.mem_singleton] at h
    subst h
    exact ⟨rfl, rfl⟩
  · exact absurd h (List.not_mem_nil q)

theorem mem_rule_staleClaim {now : ℤ} {c : NormalizedClaim} {q : OpenQuestion}
    (h : q ∈ ruleStaleClaim now c) :
    q.relatedFactId = c.fid ∧ q.category = QuestionCategory.staleData ∧
      q.priority = Priority.medium := by
  unfold ruleStaleClaim at h
  split at h
  · rw [List.mem_singleton] at h
    subst h
    exact ⟨rfl, rfl, rfl⟩
  · exact absurd h (List.not_mem_nil q)

theorem mem_rule_missingEvidenceClaim {c : NormalizedClaim} {q : OpenQuestion}
    (h : q ∈ ruleMissingEvidenceClaim c) :
    q.relatedFactId = c.fid ∧ q.category = QuestionCategory.missingEvidence := by
  unfold ruleMissingEvidenceClaim at h
  split at h
  · rw [List.mem_singleton] at h
    subst h
    exact ⟨rfl, rfl⟩
  · exact absurd h (List.not_mem_nil q)

theorem questionsForMetric_related {vocab : Vocabulary} {now : ℤ}
    {m : NormalizedMetric} {q : OpenQuestion}
    (h : q ∈ questionsForMetric vocab now m) : q.relatedFactId = m.fid := by
  unfold questionsForMetric at h
  simp only [List.mem_append] at h
  rcases h with ((((h | h) | h) | h) | h) | h
  · exact (mem_rule_missingUnit h).1
  · exact (mem_rule_missingCurrency h).1
  · exact (mem_rule_missingPeriod h).1
  · exact (mem_rule_staleMetric h).1
  · exact (mem_rule_ambiguousValue h).1
  · exact (mem_rule_missingEvidenceMetric h).1

theorem questionsForMetric_stale_priority {vocab : Vocabulary} {now : ℤ}
    {m : NormalizedMetric} {q : OpenQuestion}
    (h : q ∈ questionsForMetric vocab now m)
    (hcat : q.category = QuestionCategory.staleData) :
    q.priority =
      (if vocab.isCritical m.metricName then Priority.high else Priority.medium) := by
  unfold questionsForMetric at h
  simp only [List.mem_append] at h
  rcases h with ((((h | h) | h) | h) | h) | h
  · rw [(mem_rule_missingUnit h).2] at hcat
    exact absurd hcat (by simp)
  · rw [(mem_rule_missingCurrency h).2] at hcat
    exact absurd hcat (by simp)
  · rw [(mem_rule_missingPeriod h).2] at hcat
    exact absurd hcat (by simp)
  · exact (mem_rule_staleMetric h).2.2.2
  · rw [(mem_rule_ambiguousValue h).2] at hcat
    exact absurd hcat (by simp)
  · rw [(mem_rule_missingEvidenceMetric h).2] at hcat
    exact absurd hcat (by simp)

theorem questionsForClaim_related {now : ℤ} {c : NormalizedClaim} {q : OpenQuestion}
    (h : q ∈ questionsForClaim now c) : q.relatedFactId = c.fid := by
  unfold questionsForClaim at h
  simp only [List.mem_append] at h
  rcases h with h | h
  · exact (mem_rule_staleClaim h).1
  · exact (mem_rule_missingEvidenceClaim h).1

theorem countP_stale_questionsForMetric (vocab : Vocabulary) (now : ℤ)
    (m : NormalizedMetric) :
    (questionsForMetric vocab now m).countP
      (fun q => decide (q.category = QuestionCategory.staleData ∧
        q.relatedFactId = m.fid)) =
      if isStale now (staleRefDate m.window m.extractedAt) = true then 1 else 0 := by
  unfold questionsForMetric
  repeat rw [List.countP_append]
  have z1 : (ruleMissingUnit m).countP
      (fun q => decide (q.category = QuestionCategory.staleData ∧
        q.relatedFactId = m.fid)) = 0 := by
    rw [List.countP_eq_zero]
    intro q hq
    simp [(mem_rule_missingUnit hq).2]
  have z2 : (ruleMissingCurrency vocab m).countP
      (fun q => decide (q.category = QuestionCategory.staleData ∧
        q.relatedFactId = m.fid)) = 0 := by
    rw [List.countP_eq_zero]
    intro q hq
    simp [(mem_rule_missingCurrency hq).2]
  have z3 : (ruleMissingPeriod vocab m).countP
      (fun q => decide (q.category = QuestionCategory.staleData ∧
        q.relatedFactId = m.fid)) = 0 := by
    rw [List.countP_eq_zero]
    intro q hq
    simp [(mem_rule_missingPeriod hq).2]
  have z5 : (ruleAmbiguousValue m).countP
      (fun q => decide (q.category = QuestionCategory.staleData ∧
        q.relatedFactId = m.fid)) = 0 := by
    rw [List.countP_eq_zero]
    intro q hq
    simp [(mem_rule_ambiguousValue hq).2]
  have z6 : (ruleMissingEvidenceMetric m).countP
      (fun q => decide (q.category = QuestionCategory.staleData ∧
        q.relatedFactId = m.fid)) = 0 := by
    rw [List.countP_eq_zero]
    intro q hq
    simp [(mem_rule_missingEvidenceMetric hq).2]
  have z4 : (ruleStaleMetric vocab now m).countP
      (fun q => decide (q.category = QuestionCategory.staleData ∧
        q.relatedFactId = m.fid)) =
      if isStale now (staleRefDate m.window m.extractedAt) = true then 1 else 0 := by
    unfold ruleStaleMetric
    by_cases hc : isStale now (staleRefDate m.window m.extractedAt) = true
    · rw [if_pos hc, if_pos hc]
      simp [List.countP_cons]
    · rw [if_neg hc, if_neg hc]
      rfl
  rw [z1, z2, z3, z4, z5, z6]
  omega

theorem countP_stale_questionsForMetric_ne (vocab : Vocabulary) (now : ℤ)
    (m : NormalizedMetric) (i : ℕ) (hi : m.fid ≠ i) :
    (questionsForMetric vocab now m).countP
      (fun q => decide (q.category = QuestionCategory.staleData ∧
        q.relatedFactId = i)) = 0 := by
  rw [List.countP_eq_zero]
  intro q hq
  have hrel := questionsForMetric_related hq
  simp only [decide_eq_true_eq, not_and]
  intro _
  rw [hrel]
  exact hi

theorem sum_map_eq_single {γ : Type} (g : γ → ℕ) :
    ∀ {ks : List γ}, ks.Nodup → ∀ {k0}, k0 ∈ ks →
      (∀ k ∈ ks, k ≠ k0 → g k = 0) → (ks.map g).sum = g k0 := by
  intro ks
  induction ks with
  | nil =>
    intro _ k0 hk0
    exact absurd hk0 (List.not_mem_nil k0)
  | cons a t ih =>
    intro hnd k0 hk0 h0
    rw [List.nodup_cons] at hnd
    rw [List.map_cons, List.sum_cons]
    rcases List.mem_cons.1 hk0 with rfl | hk0t
    · have ht : (t.map g).sum = 0 := by
        rw [List.sum_eq_zero_iff]
        intro n hn
        rcases List.mem_map.1 hn with ⟨k, hk, rfl⟩
        exact h0 k (List.mem_cons_of_mem _ hk) (fun hkk => hnd.1 (hkk ▸ hk))
      rw [ht]
      omega
    · have ha : g a = 0 :=
        h0 a (List.mem_cons_self _ _) (fun haa => hnd.1 (haa ▸ hk0t))
      rw [ha, ih hnd.2 hk0t
        (fun k hk hne => h0 k (List.mem_cons_of_mem _ hk) hne)]
      omega

theorem normalize_metric_extractedAt (m : RawMetric) :
    (normalize_metric m).extractedAt = m.extractedAt := rfl

theorem normalize_metric_metricName (m : RawMetric) :
    (normalize_metric m).metricName = m.metricName := rfl

theorem normalize_claim_extractedAt (c : RawClaim) :
    (normalize_claim c).extractedAt = c.extractedAt := rfl

theorem questionsForClaim_stale_priority {now : ℤ} {c : NormalizedClaim}
    {q : OpenQuestion} (h : q ∈ questionsForClaim now c)
    (hcat : q.category = QuestionCategory.staleData) :
    q.priority = Priority.medium := by
  unfold questionsForClaim at h
  simp only [List.mem_append] at h
  rcases h with h | h
  · exact (mem_rule_staleClaim h).2.2
  · rw [(mem_rule_missingEvidenceClaim h).2] at hcat
    exact absurd hcat (by simp)

theorem countP_stale_questionsForClaim (now : ℤ) (c : NormalizedClaim) :
    (questionsForClaim now c).countP
      (fun q => decide (q.category = QuestionCategory.staleData ∧
        q.relatedFactId = c.fid)) =
      if isStale now (staleRefDate c.window c.extractedAt) = true then 1 else 0 := by
  unfold questionsForClaim
  rw [List.countP_append]
  have z2 : (ruleMissingEvidenceClaim c).countP
      (fun q => decide (q.category = QuestionCategory.staleData ∧
        q.relatedFactId = c.fid)) = 0 := by
    rw [List.countP_eq_zero]
    intro q hq
    simp [(mem_rule_missingEvidenceClaim hq).2]
  have z1 : (ruleStaleClaim now c).countP
      (fun q => decide (q.category = QuestionCategory.staleData ∧
        q.relatedFactId = c.fid)) =
      if isStale now (staleRefDate c.window c.extractedAt) = true then 1 else 0 := by
    unfold ruleStaleClaim
    by_cases hc : isStale now (staleRefDate c.window c.extractedAt) = true
    · rw [if_pos hc, if_pos hc]
      simp [List.countP_cons]
    · rw [if_neg hc, if_neg hc]
      rfl
  rw [z1, z2]
  omega

theorem countP_stale_questionsForClaim_ne (now : ℤ) (c : NormalizedClaim)
    (i : ℕ) (hi : c.fid ≠ i) :
    (questionsForClaim now c).countP
      (fun q => decide (q.category = QuestionCategory.staleData ∧
        q.relatedFactId = i)) = 0 := by
  rw [List.countP_eq_zero]
  intro q hq
  have hrel := questionsForClaim_related hq
  simp only [decide_eq_true_eq, not_and]
  intro _
  rw [hrel]
  exact hi

/-- C5.  A fact (metric or claim) whose reference date (window end, else
extraction timestamp) is more than 12 months before the run time gets
exactly one `stale_data` open question, `high` priority when the metric
is vocabulary-critical and `medium` otherwise — a claim fact is never in
the critical metric set, so its stale question is `medium`; a metric 11
months old gets none. -/
theorem spec_c5_stale_data :
    (∀ (vocab : Vocabulary) (now : ℤ) (scope : ScopeFilter) (input : FactInput)
      (m : RawMetric),
      (input.metrics.map RawMetric.fid ++ input.claims.map RawClaim.fid).Nodup →
      m ∈ input.metrics →
      ((analyze vocab now scope input).openQuestions.countP
        (fun q => decide (q.category = QuestionCategory.staleData ∧
          q.relatedFactId = m.fid)) =
        (if staleRefDate (normalize_metric m).window m.extractedAt < now - 12
         then 1 else 0)) ∧
      (∀ q ∈ (analyze vocab now scope input).openQuestions,
        q.category = QuestionCategory.staleData → q.relatedFactId = m.fid →
        q.priority =
          (if vocab.isCritical m.metricName then Priority.high else Priority.medium))) ∧
    (∀ (vocab : Vocabulary) (now : ℤ) (scope : ScopeFilter) (input : FactInput)
      (r : RawClaim),
      (input.metrics.map RawMetric.fid ++ input.claims.map RawClaim.fid).Nodup →
      r ∈ input.claims →
      ((analyze vocab now scope input).openQuestions.countP
        (fun q => decide (q.category = QuestionCategory.staleData ∧
          q.relatedFactId = r.fid)) =
        (if staleRefDate (normalize_claim r).window r.extractedAt < now - 12
         then 1 else 0)) ∧
      (∀ q ∈ (analyze vocab now scope input).openQuestions,
        q.category = QuestionCategory.staleData → q.relatedFactId = r.fid →
        q.priority = Priority.medium)) ∧
    (((analyze sampleVocab 20 emptyScope
      { metrics := [sampleMetricAt 1 100 6 7], claims := [] }).openQuestions.filter
        (fun q => decide (q.category = QuestionCategory.staleData))).map
        (fun q => (q.priority, q.relatedFactId)) = [(Priority.high, 1)]) ∧
    ((analyze sampleVocab 20 emptyScope
      { metrics := [sampleMetricAt 1 100 8 9], claims := [] }).openQuestions.countP
        (fun q => decide (q.category = QuestionCategory.staleData)) = 0) ∧
    (((analyze sampleVocab 20 emptyScope
      { metrics := [], claims := [sampleClaim 1 (some "true")] }).openQuestions.filter
        (fun q => decide (q.category = QuestionCategory.staleData))).map
        (fun q => (q.priority, q.relatedFactId)) = [(Priority.medium, 1)]) := by
  refine ⟨?mgoal, ?cgoal, by decide, by decide, by decide⟩
  case cgoal =>
    intro vocab now scope input r hnd hr
    rcases List.nodup_append.1 hnd with ⟨hmnd, hcnd, hdisj⟩
    have hfidnC := normalizedClaimsOf_fid_nodup hcnd
    have hlndC : (normalizedClaimsOf input).Nodup := hfidnC.of_map
    have hcm : normalize_claim r ∈ normalizedClaimsOf input := mem_normalizedClaimsOf hr
    have hrfidC : r.fid ∈ input.claims.map RawClaim.fid := List.mem_map_of_mem _ hr
    constructor
    · rw [analyze_questions_eq, (List.perm_insertionSort _ _).countP_eq,
        List.countP_append]
      have hmetric0 : ((normalizedMetricsOf input).flatMap
          (questionsForMetric vocab now)).countP
          (fun q => decide (q.category = QuestionCategory.staleData ∧
            q.relatedFactId = r.fid)) = 0 := by
        rw [List.countP_eq_zero]
        intro q hq
        rcases List.mem_flatMap.1 hq with ⟨x, hx, hqx⟩
        have hrel := questionsForMetric_related hqx
        simp only [decide_eq_true_eq, not_and]
        intro _
        rw [hrel]
        intro heq
        have h1 : x.fid ∈ input.metrics.map RawMetric.fid :=
          (normalizedMetricsOf_fid_perm input).mem_iff.1 (List.mem_map_of_mem _ hx)
        exact hdisj h1 (heq ▸ hrfidC)
      rw [hmetric0, Nat.zero_add, countP_flatMap_eq]
      have hz : ∀ x ∈ normalizedClaimsOf input, x ≠ normalize_claim r →
          (questionsForClaim now x).countP
            (fun q => decide (q.category = QuestionCategory.staleData ∧
              q.relatedFactId = r.fid)) = 0 := by
        intro x hx hxne
        apply countP_stale_questionsForClaim_ne
        intro hfid
        apply hxne
        exact List.inj_on_of_nodup_map hfidnC hx hcm
          (by rw [normalize_claim_fid]; exact hfid)
      rw [sum_map_eq_single _ hlndC hcm hz]
      have hc := countP_stale_questionsForClaim now (normalize_claim r)
      simp only [normalize_claim_fid, normalize_claim_extractedAt] at hc
      rw [hc]
      by_cases hst : staleRefDate (normalize_claim r).window r.extractedAt < now - 12 <;>
        simp [isStale, hst]
    · intro q hq hcat hrel
      rcases mem_analyze_questions.1 hq with h | h
      · exfalso
        rcases List.mem_flatMap.1 h with ⟨x, hx, hqx⟩
        have hrelm := questionsForMetric_related hqx
        have h1 : x.fid ∈ input.metrics.map RawMetric.fid :=
          (normalizedMetricsOf_fid_perm input).mem_iff.1 (List.mem_map_of_mem _ hx)
        apply hdisj h1
        rw [show x.fid = r.fid from by rw [← hrelm, hrel]]
        exact hrfidC
      · rcases List.mem_flatMap.1 h with ⟨cN, hcN, hqc⟩
        exact questionsForClaim_stale_priority hqc hcat
  intro vocab now scope input m hnd hm
  rcases List.nodup_append.1 hnd with ⟨hmnd, hcnd, hdisj⟩
  have hfidn := normalizedMetricsOf_fid_nodup hmnd
  have hlndN : (normalizedMetricsOf input).Nodup := hfidn.of_map
  have hmm : normalize_metric m ∈ normalizedMetricsOf input := mem_normalizedMetricsOf hm
  constructor
  · rw [analyze_questions_eq, (List.perm_insertionSort _ _).countP_eq,
      List.countP_append]
    have hclaim0 : ((normalizedClaimsOf input).flatMap (questionsForClaim now)).countP
        (fun q => decide (q.category = QuestionCategory.staleData ∧
          q.relatedFactId = m.fid)) = 0 := by
      rw [List.countP_eq_zero]
      intro q hq
      rcases List.mem_flatMap.1 hq with ⟨cN, hcN, hqc⟩
      have hrel := questionsForClaim_related hqc
      simp only [decide_eq_true_eq, not_and]
      intro _
      rw [hrel]
      intro heq
      have h1 : cN.fid ∈ input.claims.map RawClaim.fid :=
        (normalizedClaimsOf_fid_perm input).mem_iff.1 (List.mem_map_of_mem _ hcN)
      have h2 : m.fid ∈ input.metrics.map RawMetric.fid := List.mem_map_of_mem _ hm
      exact hdisj h2 (heq ▸ h1)
    rw [hclaim0, Nat.add_zero, countP_flatMap_eq]
    have hz : ∀ x ∈ normalizedMetricsOf input, x ≠ normalize_metric m →
        (questionsForMetric vocab now x).countP
          (fun q => decide (q.category = QuestionCategory.staleData ∧
            q.relatedFactId = m.fid)) = 0 := by
      intro x hx hxne
      apply countP_stale_questionsForMetric_ne
      intro hfid
      apply hxne
      exact List.inj_on_of_nodup_map hfidn hx hmm
        (by rw [normalize_metric_fid]; exact hfid)
    rw [sum_map_eq_single _ hlndN hmm hz]
    have hc := countP_stale_questionsForMetric vocab now (normalize_metric m)
    simp only [normalize_metric_fid, normalize_metric_extractedAt] at hc
    rw [hc]
    by_cases hst : staleRefDate (normalize_metric m).window m.extractedAt < now - 12 <;>
      simp [isStale, hst]
  · intro q hq hcat hrel
    rcases mem_analyze_questions.1 hq with h | h
    · rcases List.mem_flatMap.1 h with ⟨x, hx, hqx⟩
      have hxm : x = normalize_metric m := by
        apply List.inj_on_of_nodup_map hfidn hx hmm
        rw [normalize_metric_fid, ← questionsForMetric_related hqx]
        exact hrel
      subst hxm
      have hpr := questionsForMetric_stale_priority hqx hcat
      simpa only [normalize_metric_metricName] using hpr
    · exfalso
      rcases List.mem_flatMap.1 h with ⟨cN, hcN, hqc⟩
      have hrelc := questionsForClaim_related hqc
      have h1 : cN.fid ∈ input.claims.map RawClaim.fid :=
        (normalizedClaimsOf_fid_perm input).mem_iff.1 (List.mem_map_of_mem _ hcN)
      have h2 : m.fid ∈ input.metrics.map RawMetric.fid := List.mem_map_of_mem _ hm
      apply hdisj h2
      rw [show m.fid = cN.fid from by rw [← hrel, hrelc]]
      exact h1

/-- C5 witness: the 13-months-old critical metric yields its stale-data
question count from the characterization. -/
theorem spec_c5_stale_data_witness :
    (analyze sampleVocab 20 emptyScope
      { metrics := [sampleMetricAt 1 100 6 7], claims := [] }).openQuestions.countP
      (fun q => decide (q.category = QuestionCategory.staleData ∧
        q.relatedFactId = (sampleMetricAt 1 100 6 7).fid)) =
      (if staleRefDate (normalize_metric (sampleMetricAt 1 100 6 7)).window
          (sampleMetricAt 1 100 6 7).extractedAt < 20 - 12 then 1 else 0) :=
  ((spec_c5_stale_data.1 sampleVocab 20 emptyScope
    { metrics := [sampleMetricAt 1 100 6 7], claims := [] }
    (sampleMetricAt 1 100 6 7) (by decide) (by decide)).1)

theorem resolveUnitToken_not_unknown {t : String} {ut : UnitType} {sym : String}
    (h : resolveUnitToken t = some (ut, sym)) : ut ≠ UnitType.unknown := by
  unfold resolveUnitToken at h
  rcases hc : currencyCodeOf t with _ | code <;> rw [hc] at h
  · split_ifs at h
    · simp only [Option.some.injEq, Prod.mk.injEq] at h
      rw [← h.1]
      simp
    · simp only [Option.some.injEq, Prod.mk.injEq] at h
      rw [← h.1]
      simp
  · simp only [Option.some.injEq, Prod.mk.injEq] at h
    rw [← h.1]
    simp

/-- The unit resolver either fails to a fully unknown unit or resolves a
canonical symbol of a known unit family. -/
theorem resolveUnit_invariant (u : String) :
    ((resolveUnit u).unitType = UnitType.unknown ∧ (resolveUnit u).symbol = none) ∨
    ((resolveUnit u).unitType ≠ UnitType.unknown ∧
      ∃ s, (resolveUnit u).symbol = some s) := by
  unfold resolveUnit
  rcases h1 : resolveUnitToken (normalizeToken u) with _ | ⟨ut, sym⟩
  · rcases h2 : multiplierOf (normalizeToken u) with _ | sc
    · rcases h3 : splitTrailingMultiplier (normalizeToken u) with _ | ⟨base, sc⟩
      · simp [h1, h2, h3]
      · rcases h4 : resolveUnitToken base with _ | ⟨ut2, sym2⟩
        · simp [h1, h2, h3, h4]
        · simp [h1, h2, h3, h4]
          exact resolveUnitToken_not_unknown h4
    · simp [h1, h2]
  · simp [h1]
    exact resolveUnitToken_not_unknown h1

theorem normalize_metric_unitType_eq (m : RawMetric) {u : String}
    (hu : m.unit = some u) :
    (normalize_metric m).unitType = (resolveUnit u).unitType := by
  simp [normalize_metric, hu]

theorem normalize_metric_unitSymbol_eq (m : RawMetric) {u : String}
    (hu : m.unit = some u) :
    (normalize_metric m).unitSymbol = (resolveUnit u).symbol := by
  simp [normalize_metric, hu]

/-- C6.  Normalization is total: it never fails on malformed input, and
every unresolvable field comes out as an explicit unknown — a missing or
unresolvable unit yields the `unknown` unit family with no symbol, a
single-date period becomes a zero-length window, a missing numeric value is
flagged unparseable, and a missing or `unknown`-shaped claim value resolves
to `vunknown`. -/
theorem spec_c6_normalization_total :
    (∀ m : RawMetric, (normalize_metric m).unparseable = m.valueNumeric.isNone) ∧
    (∀ m : RawMetric, m.unit = none →
      (normalize_metric m).unitType = UnitType.unknown ∧
      (normalize_metric m).unitSymbol = none) ∧
    (∀ m : RawMetric,
      ((normalize_metric m).unitType = UnitType.unknown ∧
        (normalize_metric m).unitSymbol = none) ∨
      ((normalize_metric m).unitType ≠ UnitType.unknown ∧
        ∃ s, (normalize_metric m).unitSymbol = some s)) ∧
    (∀ (m : RawMetric) (d : ℤ), m.periodStart = some d → m.periodEnd = none →
      (normalize_metric m).window = some (d, d)) ∧
    (∀ (m : RawMetric) (d : ℤ), m.periodStart = none → m.periodEnd = some d →
      (normalize_metric m).window = some (d, d)) ∧
    (∀ c : RawClaim, c.value = none →
      (normalize_claim c).value = NormalizedValue.vunknown) ∧
    (∀ (c : RawClaim) (v : String), c.value = some v →
      normalizeToken v = "unknown" →
      (normalize_claim c).value = NormalizedValue.vunknown) := by
  refine ⟨fun m => rfl, ?_, ?_, ?_, ?_, ?_, ?_⟩
  · intro m h
    constructor
    · simp [normalize_metric, h]
    · simp [normalize_metric, h]
  · intro m
    rcases hu : m.unit with _ | u
    · exact Or.inl ⟨by simp [normalize_metric, hu], by simp [normalize_metric, hu]⟩
    · rw [normalize_metric_unitType_eq m hu, normalize_metric_unitSymbol_eq m hu]
      exact resolveUnit_invariant u
  · intro m d h1 h2
    simp [normalize_metric, effectiveWindow, h1, h2]
  · intro m d h1 h2
    simp [normalize_metric, effectiveWindow, h1, h2]
  · intro c h
    simp [normalize_claim, resolveClaimValue, h]
  · intro c v hv ht
    simp [normalize_claim, hv, resolveClaimValue, ht]

/-- Sorting by a key that is nodup on the list is canonical: any permutation
of the input sorts to the same list. -/
theorem insertionSort_key_canonical {X : Type} (key : X → ℕ) {l l' : List X}
    (hperm : List.Perm l' l) (hnd : (l.map key).Nodup) :
    l'.insertionSort (fun a b => key a ≤ key b) =
      l.insertionSort (fun a b => key a ≤ key b) := by
  haveI hTot : IsTotal X (fun a b => key a ≤ key b) :=
    ⟨fun a b => Nat.le_total (key a) (key b)⟩
  haveI hTrans : IsTrans X (fun a b => key a ≤ key b) :=
    ⟨fun a b c h1 h2 => Nat.le_trans h1 h2⟩
  haveI hAnti : IsAntisymm X (fun a b => key a < key b) :=
    ⟨fun a b h1 h2 => absurd (Nat.lt_trans h1 h2) (Nat.lt_irrefl _)⟩
  have hp : List.Perm (l'.insertionSort (fun a b => key a ≤ key b))
      (l.insertionSort (fun a b => key a ≤ key b)) :=
    ((List.perm_insertionSort _ l').trans hperm).trans
      (List.perm_insertionSort _ l).symm
  have strict : ∀ (t : List X), List.Perm t l →
      List.Sorted (fun a b => key a ≤ key b) t →
      List.Sorted (fun a b => key a < key b) t := by
    intro t hpt hst
    have hndt : (t.map key).Nodup := ((hpt.map key).nodup_iff).2 hnd
    have hne : t.Pairwise (fun a b => key a ≠ key b) := List.pairwise_map.mp hndt
    exact (hst.and hne).imp (fun h => Nat.lt_of_le_of_ne h.1 h.2)
  exact List.eq_of_perm_of_sorted hp
    (strict _ ((List.perm_insertionSort _ l').trans hperm)
      (List.sorted_insertionSort _ l'))
    (strict _ (List.perm_insertionSort _ l) (List.sorted_insertionSort _ l))

theorem sortMetricsByFid_canonical {l l' : List RawMetric}
    (hperm : List.Perm l' l) (hnd : (l.map RawMetric.fid).Nodup) :
    sortMetricsByFid l' = sortMetricsByFid l := by
  unfold sortMetricsByFid
  exact insertionSort_key_canonical RawMetric.fid hperm hnd

theorem sortClaimsByFid_canonical {l l' : List RawClaim}
    (hperm : List.Perm l' l) (hnd : (l.map RawClaim.fid).Nodup) :
    sortClaimsByFid l' = sortClaimsByFid l := by
  unfold sortClaimsByFid
  exact insertionSort_key_canonical RawClaim.fid hperm hnd

/-- C7.  The analysis is insensitive to input ordering: permuting the fact
lists yields the identical `AnalysisResult` (so two runs on a fixed input —
the identity permutation — are identical as well). -/
theorem spec_c7_order_insensitive (vocab : Vocabulary) (now : ℤ)
    (scope : ScopeFilter) (input input2 : FactInput)
    (hm : List.Perm input2.metrics input.metrics)
    (hc : List.Perm input2.claims input.claims)
    (hndm : (input.metrics.map RawMetric.fid).Nodup)
    (hndc : (input.claims.map RawClaim.fid).Nodup) :
    analyze vocab now scope input2 = analyze vocab now scope input := by
  have h1 : sortMetricsByFid input2.metrics = sortMetricsByFid input.metrics :=
    sortMetricsByFid_canonical hm hndm
  have h2 : sortClaimsByFid input2.claims = sortClaimsByFid input.claims :=
    sortClaimsByFid_canonical hc hndc
  simp only [analyze, normalizedMetricsOf, normalizedClaimsOf, h1, h2]

/-- C7 witness: swapping the two metrics of the tolerance scenario leaves
the analysis result unchanged. -/
theorem spec_c7_order_insensitive_witness :
    analyze sampleVocab 10 emptyScope
      { metrics := [sampleMetric 2 106, sampleMetric 1 100],
        claims := [sampleClaim 3 (some "true")] } =
    analyze sampleVocab 10 emptyScope
      { metrics := [sampleMetric 1 100, sampleMetric 2 106],
        claims := [sampleClaim 3 (some "true")] } :=
  spec_c7_order_insensitive sampleVocab 10 emptyScope
    { metrics := [sampleMetric 1 100, sampleMetric 2 106],
      claims := [sampleClaim 3 (some "true")] }
    { metrics := [sampleMetric 2 106, sampleMetric 1 100],
      claims := [sampleClaim 3 (some "true")] }
    (by decide) (by decide) (by decide) (by decide)

/-! ## C8–C10: service theorems -/

theorem searchService_search_results (table : List ChunkRow) (sim : ChunkRow → ℚ)
    (query : String) (lim : ℕ) (threshold : ℚ)
    (pf df : Option (ChunkRow → Bool)) :
    (searchService_search table sim query lim threshold pf df).results =
      (runSearchQuery table sim threshold lim (searchExtraFilter pf df)).map
        (mkSearchItem sim) := rfl

/-- C8.  Every returned search item meets the similarity threshold, the
result list is ordered by similarity descending, its length never exceeds
the limit, and the reported total is the number of returned items. -/
theorem spec_c8_search_contract (table : List ChunkRow) (sim : ChunkRow → ℚ)
    (query : String) (lim : ℕ) (threshold : ℚ)
    (pf df : Option (ChunkRow → Bool)) :
    (∀ item ∈ (searchService_search table sim query lim threshold pf df).results,
      threshold ≤ item.similarity) ∧
    List.Pairwise (fun x y => y.similarity ≤ x.similarity)
      (searchService_search table sim query lim threshold pf df).results ∧
    (searchService_search table sim query lim threshold pf df).results.length ≤ lim ∧
    (searchService_search table sim query lim threshold pf df).total =
      (searchService_search table sim query lim threshold pf df).results.length := by
  haveI hTot : IsTotal ChunkRow (fun a b => sim b ≤ sim a) :=
    ⟨fun a b => le_total (sim b) (sim a)⟩
  haveI hTrans : IsTrans ChunkRow (fun a b => sim b ≤ sim a) :=
    ⟨fun a b c h1 h2 => le_trans h2 h1⟩
  refine ⟨?_, ?_, ?_, rfl⟩
  · intro item hitem
    rw [searchService_search_results] at hitem
    rcases List.mem_map.1 hitem with ⟨ch, hch, rfl⟩
    show threshold ≤ sim ch
    unfold runSearchQuery at hch
    have h1 : ch ∈ (table.filter (fun c => searchExtraFilter pf df c &&
        decide (threshold ≤ sim c))).insertionSort (fun a b => sim b ≤ sim a) :=
      List.mem_of_mem_take hch
    have h2 : ch ∈ table.filter (fun c => searchExtraFilter pf df c &&
        decide (threshold ≤ sim c)) := (List.perm_insertionSort _ _).mem_iff.1 h1
    have h3 := List.of_mem_filter h2
    rw [Bool.and_eq_true] at h3
    exact of_decide_eq_true h3.2
  · rw [searchService_search_results]
    unfold runSearchQuery
    have hsorted : List.Pairwise (fun a b : ChunkRow => sim b ≤ sim a)
        (((table.filter (fun c => searchExtraFilter pf df c &&
          decide (threshold ≤ sim c))).insertionSort
          (fun a b => sim b ≤ sim a)).take lim) :=
      List.Pairwise.sublist (List.take_sublist _ _) (List.sorted_insertionSort _ _)
    exact List.Pairwise.map _ (fun a b h => h) hsorted
  · rw [searchService_search_results, List.length_map]
    unfold runSearchQuery
    exact List.length_take_le _ _

theorem eq_singleton_of_mem_of_length_le {γ : Type} :
    ∀ {L : List γ} {x : γ}, x ∈ L → L.length ≤ 1 → L = [x] := by
  intro L x hx hlen
  match L, hx with
  | [a], hx =>
    rw [List.mem_singleton] at hx
    rw [hx]
  | a :: b :: t, _ => simp at hlen

/-- C9.  Ingestion deduplicates on the SHA-256 content hash: when a single
non-soft-deleted document with the hash exists, its id is returned with
`deduplicated = true` and no rows are created; when none exists, exactly one
document and one version-number-1 version row are appended and
`deduplicated = false` is returned. -/
theorem spec_c9_ingest_dedup (sha256 : List ℕ → String) (st : DBState)
    (freshDocId freshVerId : ℕ) (fileData : List ℕ)
    (filename contentType : String) (userId : Option String)
    (hcount : (st.documents.filter (dedupMatch (sha256 fileData))).length ≤ 1) :
    (∀ d ∈ st.documents, dedupMatch (sha256 fileData) d = true →
      task_ingest_document sha256 st freshDocId freshVerId fileData filename
          contentType userId =
        Except.ok (st,
          { documentId := d.docId
            versionId := ((versionsOf st d.docId).head?).map (fun v => v.verId)
            deduplicated := true })) ∧
    ((∀ d ∈ st.documents, dedupMatch (sha256 fileData) d = false) →
      ∃ (doc : DocRecord) (ver : VersionRecord),
        task_ingest_document sha256 st freshDocId freshVerId fileData filename
            contentType userId =
          Except.ok ({ documents := st.documents ++ [doc],
                       versions := st.versions ++ [ver] },
                     { documentId := freshDocId, versionId := some freshVerId,
                       deduplicated := false }) ∧
        doc.docId = freshDocId ∧ doc.fileHash = some (sha256 fileData) ∧
        doc.deletedAt = none ∧ ver.verId = freshVerId ∧
        ver.documentId = freshDocId ∧ ver.versionNumber = 1) := by
  constructor
  · intro d hd hmatch
    have hfil : st.documents.filter (dedupMatch (sha256 fileData)) = [d] :=
      eq_singleton_of_mem_of_length_le (List.mem_filter.2 ⟨hd, hmatch⟩) hcount
    simp only [task_ingest_document]
    rw [hfil]
  · intro hnone
    have hfil : st.documents.filter (dedupMatch (sha256 fileData)) = [] := by
      rw [List.filter_eq_nil_iff]
      intro d hd
      rw [hnone d hd]
      simp
    refine ⟨{ docId := freshDocId
              filename := filename
              originalFilename := filename
              contentType := contentType
              fileHash := some (sha256 fileData)
              deletedAt := none },
      { verId := freshVerId
        documentId := freshDocId
        versionNumber := 1
        storagePath := "documents/" ++ toString freshDocId ++ "/v1/" ++ filename
        fileSize := fileData.length
        fileHash := sha256 fileData },
      ?_, rfl, rfl, rfl, rfl, rfl, rfl⟩
    simp only [task_ingest_document]
    rw [hfil]

/-- C9 witness: ingesting into an empty store creates exactly one document
and one version-1 row, not deduplicated. -/
theorem spec_c9_ingest_dedup_witness :
    ∃ (doc : DocRecord) (ver : VersionRecord),
      task_ingest_document (fun _ => "h0") { documents := [], versions := [] }
          1 2 [104, 105] "a.txt" "text/plain" none =
        Except.ok ({ documents := [] ++ [doc], versions := [] ++ [ver] },
          { documentId := 1, versionId := some 2, deduplicated := false }) ∧
      doc.docId = 1 ∧ doc.fileHash = some "h0" ∧ doc.deletedAt = none ∧
      ver.verId = 2 ∧ ver.documentId = 1 ∧ ver.versionNumber = 1 :=
  (spec_c9_ingest_dedup (fun _ => "h0") { documents := [], versions := [] }
    1 2 [104, 105] "a.txt" "text/plain" none (by decide)).2 (by decide)

/-- C10.  `_extract_text_content` never reaches its replacement fallback:
latin-1 decoding succeeds on every byte sequence, so the utf-8 → latin-1 →
cp1252 chain already yields the result (utf-8 when valid, else the latin-1
identity decoding), and the function is total. -/
theorem spec_c10_decode_fallback_unreachable (data : List ℕ) :
    decodeWith TextEncoding.latin1 data = some data ∧
    tryDecodings [TextEncoding.utf8, TextEncoding.latin1, TextEncoding.cp1252]
      data = some (extractTextContent data) ∧
    extractTextContent data = (utf8Decode data).getD data := by
  refine ⟨rfl, ?_, ?_⟩
  · unfold extractTextContent tryDecodings
    rcases h : utf8Decode data with _ | t <;> simp [decodeWith, h, tryDecodings]
  · unfold extractTextContent tryDecodings
    rcases h : utf8Decode data with _ | t <;> simp [decodeWith, h, tryDecodings]

end EvidenceRepository
